import Mathlib

/-!
# Frame cache with background loader (`framecache.h`, `framecache.cpp`)

A shallow embedding of `FrameLoader` and `FrameCache`, followed by the parts of
`ProxyManager`, `VideoExporter` and `Animation` that the statements are about.

* `qint64` values are integers read through `wrapInt64`, `int` values through
  `wrapInt32`, wherever the source computes with them.
* A `QImage` is reduced to what the cache looks at: its byte size and an
  identifier of its pixel content.
* Signals are recorded in logs: the loader's `frameLoaded` / `frameLoadError`
  events are returned by `FrameLoader.run`, the cache's `frameAvailable` /
  `cacheError` signals are appended to `FrameCache.emitted`.
* The frame decoder (`FrameLoader::loadFrame`, an FFmpeg process) is a parameter
  `decode : String → Int → QImage` of the worker loop.
* The hit and miss counters, the loop counters of `getFrame` and the cost
  arithmetic inside `QCache` are plain integers: they stay far inside the `int`
  range on the inputs treated here.
* The two threads are modelled by interleaving whole operations: a call of the
  cache, one pass of the worker loop, the handling of one loader signal. Where a
  statement depends on what happens inside a pass (a `stop()` or a `requestFrame`
  that arrives in the middle of it), the worker is followed statement by statement
  (`LoaderThread`).
-/

/-- Two's complement reading of an integer as a 32-bit `int`: a value in range is
itself, any other value is reduced modulo 2^32. -/
def wrapInt32 (x : Int) : Int :=
  if x ≤ 2147483647 ∧ -2147483648 ≤ x then x
  else (x + 2147483648) % 4294967296 - 2147483648

/-- Two's complement reading of an integer as a 64-bit `qint64`: a value in range
is itself, any other value is reduced modulo 2^64. -/
def wrapInt64 (x : Int) : Int :=
  if x ≤ 9223372036854775807 ∧ -9223372036854775808 ≤ x then x
  else (x + 9223372036854775808) % 18446744073709551616 - 9223372036854775808

/-- A decoded raster frame: `sizeInBytes` is `QImage::sizeInBytes()`, `pixels`
identifies the content. The null image `QImage()` has no bytes. -/
structure QImage where
  sizeInBytes : Nat
  pixels : Nat
deriving DecidableEq, Repr

/-- The default constructed image `QImage()`. -/
def QImage.null : QImage := ⟨0, 0⟩

/-- `QImage::isNull()`: an image is null exactly when it holds no bytes. -/
def QImage.isNull (img : QImage) : Bool := img.sizeInBytes == 0

/-- `struct CacheKey { QString filePath; qint64 timestamp; }` with the structural
`operator==`. -/
structure CacheKey where
  filePath : String
  timestamp : Int
deriving DecidableEq, Repr

/-! ## `QCache<CacheKey, QImage>` -/

/-- One node of the cache: key, stored object `t` and its cost `c`. -/
structure CacheNode where
  key : CacheKey
  t : QImage
  c : Int
deriving DecidableEq, Repr

/-- Modelled from the spec: `QCache<CacheKey, QImage>` comes from Qt's `<QCache>`
header, which is not among the sources. The model is the cost-weighted store with
least-recently-used eviction that the spec describes (a hit marks the entry most
recently used, overflow evicts oldest first, an entry that alone exceeds the budget
is not kept), laid out as Qt 5 implements it: `nodes` is the recency chain from
the last node `l` (least recently used) to the first node `f` (most recently
used), `mx` is the maximum cost and `total` the running total cost. -/
structure QCache where
  nodes : List CacheNode
  mx : Int
  total : Int
deriving DecidableEq, Repr

/-- The keys held, least recently used first. -/
def QCache.keys (q : QCache) : List CacheKey := q.nodes.map CacheNode.key

/-- `QCache::contains`. -/
def QCache.contains (q : QCache) (k : CacheKey) : Bool :=
  q.nodes.any (fun n => decide (n.key = k))

/-- `QCache::totalCost`. -/
def QCache.totalCost (q : QCache) : Int := q.total

/-- The loop of `QCache::trim(m)` on the chain and the running total: starting at
the least recently used node, unlink nodes while `total > m`. -/
def QCache.trimLoop (m : Int) : List CacheNode → Int → List CacheNode × Int
  | [], total => ([], total)
  | u :: rest, total =>
      if total > m then QCache.trimLoop m rest (total - u.c) else (u :: rest, total)

/-- `QCache::trim(m)`. -/
def QCache.trim (q : QCache) (m : Int) : QCache :=
  { q with nodes := (QCache.trimLoop m q.nodes q.total).1,
           total := (QCache.trimLoop m q.nodes q.total).2 }

/-- `QCache::remove(key)`: unlink the node of `key` when there is one. -/
def QCache.remove (q : QCache) (k : CacheKey) : QCache :=
  match q.nodes.find? (fun n => decide (n.key = k)) with
  | none => q
  | some n =>
      { q with nodes := q.nodes.eraseP (fun n => decide (n.key = k)),
               total := q.total - n.c }

/-- `QCache::insert(key, object, cost)`: drop the old entry of `key`, refuse an
object whose cost exceeds `mx`, otherwise make room and link the new node as the
most recently used. -/
def QCache.insert (q : QCache) (k : CacheKey) (obj : QImage) (acost : Int) : QCache :=
  let q1 := q.remove k
  if acost > q1.mx then q1
  else
    let q2 := q1.trim (q1.mx - acost)
    { q2 with nodes := q2.nodes ++ [⟨k, obj, acost⟩], total := q2.total + acost }

/-- `QCache::object(key)` (Qt's `relink`): on a hit the node becomes the most
recently used and its object is returned; on a miss nothing changes. -/
def QCache.object (q : QCache) (k : CacheKey) : Option QImage × QCache :=
  match q.nodes.find? (fun n => decide (n.key = k)) with
  | none => (none, q)
  | some n =>
      (some n.t,
        { q with nodes := q.nodes.eraseP (fun n => decide (n.key = k)) ++ [n] })

/-- `QCache::clear`. -/
def QCache.clear (q : QCache) : QCache := { q with nodes := [], total := 0 }

/-- `QCache::setMaxCost(m)`. -/
def QCache.setMaxCost (q : QCache) (m : Int) : QCache := ({ q with mx := m }).trim m

/-- A freshly constructed `QCache` (Qt's default maximum cost is 100). -/
def QCache.empty : QCache := ⟨[], 100, 0⟩

/-! ## `FrameLoader` -/

/-- `struct LoadRequest { QString filePath; qint64 timestamp; }`. -/
structure LoadRequest where
  filePath : String
  timestamp : Int
deriving DecidableEq, Repr

/-- The signals of `FrameLoader`. -/
inductive LoaderEvent where
  | frameLoaded (filePath : String) (timestamp : Int) (frame : QImage)
  | frameLoadError (filePath : String) (timestamp : Int) (error : String)
deriving DecidableEq, Repr

/-- The loader: its request queue (front first), the `running` flag and whether
the worker thread is executing (`QThread::isRunning()`). -/
structure FrameLoader where
  requestQueue : List LoadRequest
  running : Bool
  isRunning : Bool
deriving DecidableEq, Repr

/-- `FrameLoader::FrameLoader`: empty queue, `running(true)`, thread not started. -/
def FrameLoader.new : FrameLoader := ⟨[], true, false⟩

/-- `FrameLoader::requestFrame`: enqueue, and start the thread when it is not
running. -/
def FrameLoader.requestFrame (l : FrameLoader) (filePath : String) (timestamp : Int) :
    FrameLoader :=
  let l1 := { l with requestQueue := l.requestQueue ++ [⟨filePath, timestamp⟩] }
  if !l1.isRunning then { l1 with isRunning := true } else l1

/-- `FrameLoader::stop`. -/
def FrameLoader.stop (l : FrameLoader) : FrameLoader :=
  { l with running := false, requestQueue := [] }

/-- What one pass of the body of the worker loop emits for a dequeued request. -/
def FrameLoader.process (decode : String → Int → QImage) (request : LoadRequest) :
    LoaderEvent :=
  let frame := decode request.filePath request.timestamp
  if !frame.isNull then .frameLoaded request.filePath request.timestamp frame
  else .frameLoadError request.filePath request.timestamp "Failed to load frame"

/-- The `while (running)` loop of `FrameLoader::run` over the queue content, with
no other thread touching the loader meanwhile: the events emitted, in order, and
the queue that is left. -/
def FrameLoader.runLoop (decode : String → Int → QImage) (running : Bool) :
    List LoadRequest → List LoaderEvent × List LoadRequest
  | [] => ([], [])
  | request :: rest =>
      if running then
        let r := FrameLoader.runLoop decode running rest
        (FrameLoader.process decode request :: r.1, r.2)
      else ([], request :: rest)

/-- `FrameLoader::run` executed from its first statement to the end of the thread
with no other thread touching the loader meanwhile: the events emitted and the
loader once the thread has finished. `LoaderThread.step` follows the same code
statement by statement. -/
def FrameLoader.run (decode : String → Int → QImage) (l : FrameLoader) :
    List LoaderEvent × FrameLoader :=
  let r := FrameLoader.runLoop decode l.running l.requestQueue
  (r.1, { l with requestQueue := r.2, isRunning := false })

/-- One iteration of the worker loop executed with no other thread touching the
loader meanwhile (loop condition, locked block, `loadFrame` and signal): `none`
when the loop exits (not `running`, or the queue is empty), otherwise the event
emitted and the loader afterwards. -/
def FrameLoader.iteration (decode : String → Int → QImage) (l : FrameLoader) :
    Option (LoaderEvent × FrameLoader) :=
  if l.running then
    match l.requestQueue with
    | [] => none
    | request :: rest =>
        some (FrameLoader.process decode request, { l with requestQueue := rest })
  else none

/-! ## `FrameCache` -/

/-- The signals of `FrameCache`. -/
inductive CacheSignal where
  | frameAvailable (filePath : String) (timestamp : Int)
  | cacheError (error : String)
deriving DecidableEq, Repr

/-- The members of `FrameCache`, and the log of the signals it has emitted. -/
structure FrameCache where
  frameCache : QCache
  frameLoader : FrameLoader
  maxCacheSize : Int
  cacheAhead : Int
  cacheBehind : Int
  cacheHits : Int
  cacheMisses : Int
  emitted : List CacheSignal
deriving DecidableEq, Repr

/-- `FrameCache::FrameCache`: 512 MB, 30 frames ahead and behind, no statistics. -/
def FrameCache.new : FrameCache :=
  { frameCache := QCache.empty.setMaxCost (wrapInt32 (wrapInt32 (512 * 1024) * 1024)),
    frameLoader := FrameLoader.new,
    maxCacheSize := 512, cacheAhead := 30, cacheBehind := 30,
    cacheHits := 0, cacheMisses := 0, emitted := [] }

/-- `FrameCache::setMaxCacheSize(int megabytes)`, the product taken in `int`. -/
def FrameCache.setMaxCacheSize (fc : FrameCache) (megabytes : Int) : FrameCache :=
  { fc with maxCacheSize := megabytes,
            frameCache :=
              fc.frameCache.setMaxCost (wrapInt32 (wrapInt32 (megabytes * 1024) * 1024)) }

def FrameCache.getMaxCacheSize (fc : FrameCache) : Int := fc.maxCacheSize

def FrameCache.setCacheAhead (fc : FrameCache) (frames : Int) : FrameCache :=
  { fc with cacheAhead := frames }

def FrameCache.getCacheAhead (fc : FrameCache) : Int := fc.cacheAhead

def FrameCache.setCacheBehind (fc : FrameCache) (frames : Int) : FrameCache :=
  { fc with cacheBehind := frames }

def FrameCache.getCacheBehind (fc : FrameCache) : Int := fc.cacheBehind

def FrameCache.getCacheHits (fc : FrameCache) : Int := fc.cacheHits

def FrameCache.getCacheMisses (fc : FrameCache) : Int := fc.cacheMisses

/-- `FrameCache::getCacheSize`: total cost in whole megabytes (C++ `int` division). -/
def FrameCache.getCacheSize (fc : FrameCache) : Int :=
  Int.tdiv fc.frameCache.totalCost (1024 * 1024)

/-- The cost `int cost = frame.sizeInBytes();` that `insertFrame` hands to the cache. -/
def insertCost (frame : QImage) : Int := wrapInt32 (frame.sizeInBytes : Int)

/-- `FrameCache::insertFrame`. -/
def FrameCache.insertFrame (fc : FrameCache) (filePath : String) (timestamp : Int)
    (frame : QImage) : FrameCache :=
  { fc with frameCache := fc.frameCache.insert ⟨filePath, timestamp⟩ frame (insertCost frame) }

/-- `FrameCache::prefetchFrame`: request the frame unless its key is cached. -/
def FrameCache.prefetchFrame (fc : FrameCache) (filePath : String) (timestamp : Int) :
    FrameCache :=
  if !fc.frameCache.contains ⟨filePath, timestamp⟩ then
    { fc with frameLoader := fc.frameLoader.requestFrame filePath timestamp }
  else fc

/-- `qint64 frameInterval = 1000 / 30;`. -/
def frameInterval : Int := 1000 / 30

/-- `FrameCache::getFrame`: the image returned and the state afterwards. The loop
counters `i` run over `1 .. cacheAhead` and `1 .. cacheBehind`; the timestamps are
computed in `qint64`. -/
def FrameCache.getFrame (fc : FrameCache) (filePath : String) (timestamp : Int) :
    QImage × FrameCache :=
  match fc.frameCache.object ⟨filePath, timestamp⟩ with
  | (some frame, q) => (frame, { fc with frameCache := q, cacheHits := fc.cacheHits + 1 })
  | (none, q) =>
      let fc1 := { fc with frameCache := q, cacheMisses := fc.cacheMisses + 1 }
      let fc2 := { fc1 with frameLoader := fc1.frameLoader.requestFrame filePath timestamp }
      let fc3 := (List.range fc2.cacheAhead.toNat).foldl
        (fun s i => s.prefetchFrame filePath
          (wrapInt64 (timestamp + ((i : Int) + 1) * frameInterval))) fc2
      let fc4 := (List.range fc3.cacheBehind.toNat).foldl
        (fun s i => s.prefetchFrame filePath
          (wrapInt64 (timestamp - ((i : Int) + 1) * frameInterval))) fc3
      (QImage.null, fc4)

/-- `FrameCache::resetStatistics`. -/
def FrameCache.resetStatistics (fc : FrameCache) : FrameCache :=
  { fc with cacheHits := 0, cacheMisses := 0 }

/-- `FrameCache::clearCache`. -/
def FrameCache.clearCache (fc : FrameCache) : FrameCache :=
  ({ fc with frameCache := fc.frameCache.clear }).resetStatistics

/-- `FrameCache::handleFrameLoaded`: insert the frame, emit `frameAvailable`. -/
def FrameCache.handleFrameLoaded (fc : FrameCache) (filePath : String) (timestamp : Int)
    (frame : QImage) : FrameCache :=
  let fc1 := fc.insertFrame filePath timestamp frame
  { fc1 with emitted := fc1.emitted ++ [.frameAvailable filePath timestamp] }

/-! ## `QString::arg`, `handleFrameLoadError` and `prefetchFrames` -/

/-- `QChar::digitValue()` on the ASCII digits. -/
def digitValue (c : Char) : Option Nat :=
  if c.isDigit then some (c.toNat - 48) else none

/-- A piece of a format string as `QString::arg` scans it: a plain character, or a
place marker `%N` / `%LN` (one or two digits) with its number and its own text. -/
inductive ArgPiece where
  | text (c : Char)
  | marker (n : Nat) (raw : List Char)
deriving DecidableEq, Repr

/-- Modelled from the spec: `QString::arg` is Qt library code, not among the
sources. This is the scan of Qt 5's `findArgEscapes`: a `%`, an optional `L`, then
one or two digits form a place marker; anything else is plain text. The first
argument bounds the number of steps (the length of the text suffices). -/
def argPieces : Nat → List Char → List ArgPiece
  | 0, _ => []
  | _, [] => []
  | fuel + 1, c :: rest =>
      if c = '%' then
        let pre : List Char := if rest.head? = some 'L' then ['%', 'L'] else ['%']
        let rest1 := if rest.head? = some 'L' then rest.tail else rest
        match rest1 with
        | [] => pre.map ArgPiece.text
        | d :: rest2 =>
            match digitValue d with
            | none => pre.map ArgPiece.text ++ argPieces fuel rest1
            | some v =>
                match rest2 with
                | [] => [ArgPiece.marker v (pre ++ [d])]
                | d2 :: rest3 =>
                    match digitValue d2 with
                    | some v2 => ArgPiece.marker (10 * v + v2) (pre ++ [d, d2]) :: argPieces fuel rest3
                    | none => ArgPiece.marker v (pre ++ [d]) :: argPieces fuel rest2
      else ArgPiece.text c :: argPieces fuel rest

/-- The lowest place-marker number among the pieces, if there is a marker. -/
def lowestMarker : List ArgPiece → Option Nat
  | [] => none
  | ArgPiece.text _ :: ps => lowestMarker ps
  | ArgPiece.marker n _ :: ps =>
      match lowestMarker ps with
      | none => some n
      | some m => some (min n m)

/-- Modelled from the spec: `QString::arg(const QString &)` of Qt 5 (library code,
not among the sources): every occurrence of the lowest-numbered place marker is
replaced by the argument; a string without marker is returned unchanged. -/
def QString.arg (s : String) (a : String) : String :=
  let ps := argPieces (s.length + 1) s.data
  match lowestMarker ps with
  | none => s
  | some m =>
      String.mk (ps.flatMap (fun p =>
        match p with
        | ArgPiece.text c => [c]
        | ArgPiece.marker n raw => if n = m then a.data else raw))

/-- `QString::arg(qint64)` for a format without `%L` markers: the number in decimal. -/
def QString.argInt (s : String) (n : Int) : String := QString.arg s (toString n)

/-- `FrameCache::handleFrameLoadError`: build the message and emit `cacheError`. -/
def FrameCache.handleFrameLoadError (fc : FrameCache) (filePath : String) (timestamp : Int)
    (error : String) : FrameCache :=
  let message :=
    QString.arg
      (QString.arg (QString.argInt "Failed to load frame at %1ms from %2: %3" timestamp) filePath)
      error
  { fc with emitted := fc.emitted ++ [.cacheError message] }

/-- Delivery of a loader signal to the slot it is connected to in the constructor. -/
def FrameCache.deliver (fc : FrameCache) : LoaderEvent → FrameCache
  | .frameLoaded p t frame => fc.handleFrameLoaded p t frame
  | .frameLoadError p t error => fc.handleFrameLoadError p t error

/-- The loop `for (qint64 time = startTime; time <= endTime; time += frameInterval)`
of `prefetchFrames`, the running timestamp kept in `qint64`. The first argument
bounds the number of condition checks: `none` when it is used up before the loop
ends. -/
def FrameCache.prefetchFramesLoop (filePath : String) (endTime : Int) :
    Nat → Int → FrameCache → Option FrameCache
  | 0, _, _ => none
  | fuel + 1, time, fc =>
      if time ≤ endTime then
        FrameCache.prefetchFramesLoop filePath endTime fuel (wrapInt64 (time + frameInterval))
          (fc.prefetchFrame filePath time)
      else some fc

/-- `FrameCache::prefetchFrames`. -/
def FrameCache.prefetchFrames (fuel : Nat) (fc : FrameCache) (filePath : String)
    (startTime endTime : Int) : Option FrameCache :=
  FrameCache.prefetchFramesLoop filePath endTime fuel startTime fc

/-! ## Operation sequences -/

/-- The operations on a `FrameCache` that touch the cache content or its budget. -/
inductive CacheOp where
  | insertFrame (filePath : String) (timestamp : Int) (frame : QImage)
  | handleFrameLoaded (filePath : String) (timestamp : Int) (frame : QImage)
  | getFrame (filePath : String) (timestamp : Int)
  | setMaxCacheSize (megabytes : Int)
deriving DecidableEq, Repr

/-- Run one operation. -/
def FrameCache.applyOp (fc : FrameCache) : CacheOp → FrameCache
  | .insertFrame p t f => fc.insertFrame p t f
  | .handleFrameLoaded p t f => fc.handleFrameLoaded p t f
  | .getFrame p t => (fc.getFrame p t).2
  | .setMaxCacheSize m => fc.setMaxCacheSize m

/-- The inputs the budget invariant speaks about: a budget of 0 to 2047 megabytes,
and frames whose byte size fits the `int` cost it is converted to. -/
def CacheOp.inRange : CacheOp → Prop
  | .insertFrame _ _ f => f.sizeInBytes < 2147483648
  | .handleFrameLoaded _ _ f => f.sizeInBytes < 2147483648
  | .getFrame _ _ => True
  | .setMaxCacheSize m => 0 ≤ m ∧ m ≤ 2047

/-- Sum of the costs of a chain of nodes. -/
def costSum (ns : List CacheNode) : Int := (ns.map CacheNode.c).sum

/-! ## Definitions used in the statements and proofs -/

/-- Bookkeeping invariant of the cache: the running total is the sum of the costs
held, no cost is negative, and the total fits a non-negative maximum. -/
def QCache.Inv (q : QCache) : Prop :=
  q.total = costSum q.nodes ∧ (∀ n ∈ q.nodes, 0 ≤ n.c) ∧ q.total ≤ q.mx ∧ 0 ≤ q.mx

/-- The loader after the enqueues of a `getFrame` miss: the requested frame, then
the frames ahead and the frames behind whose key is not cached. -/
def FrameCache.missLoader (fc : FrameCache) (p : String) (t : Int) : FrameLoader :=
  (List.range fc.cacheBehind.toNat).foldl
    (fun l (i : Nat) =>
      if fc.frameCache.contains ⟨p, wrapInt64 (t - ((i : Int) + 1) * frameInterval)⟩ then l
      else l.requestFrame p (wrapInt64 (t - ((i : Int) + 1) * frameInterval)))
    ((List.range fc.cacheAhead.toNat).foldl
      (fun l (i : Nat) =>
        if fc.frameCache.contains ⟨p, wrapInt64 (t + ((i : Int) + 1) * frameInterval)⟩ then l
        else l.requestFrame p (wrapInt64 (t + ((i : Int) + 1) * frameInterval)))
      (fc.frameLoader.requestFrame p t))

/-- State invariant behind the budget claim: the cache bookkeeping is sound and its
maximum cost is the configured number of megabytes, which lies in 0 .. 2047. -/
def FrameCache.BudgetInv (fc : FrameCache) : Prop :=
  fc.frameCache.Inv ∧ fc.frameCache.mx = fc.maxCacheSize * 1048576 ∧
    0 ≤ fc.maxCacheSize ∧ fc.maxCacheSize ≤ 2047

/-- A concrete run for the budget invariant: a 1 MB budget, three half-megabyte
frames and a lookup. -/
def budgetRun : List CacheOp :=
  [.setMaxCacheSize 1, .insertFrame "A" 0 ⟨524288, 1⟩, .handleFrameLoaded "B" 0 ⟨524288, 2⟩,
   .getFrame "A" 0, .insertFrame "C" 0 ⟨524288, 3⟩]

/-- Insert frames one after the other with `insertFrame`, in list order. -/
def FrameCache.insertAll (fc : FrameCache) (rs : List (CacheKey × QImage)) : FrameCache :=
  rs.foldl (fun s r => s.insertFrame r.1.filePath r.1.timestamp r.2) fc

/-- The scenario of the spec: a 1 MB budget. -/
def lruStart : FrameCache := FrameCache.new.setMaxCacheSize 1

/-- Three half-megabyte frames under the keys A, B, C. -/
def lruFrames : List (CacheKey × QImage) :=
  [(⟨"A", 0⟩, ⟨524288, 1⟩), (⟨"B", 0⟩, ⟨524288, 2⟩), (⟨"C", 0⟩, ⟨524288, 3⟩)]

/-- A 1 MB cache filled to capacity with the two half-megabyte frames A and B. -/
def lruFull : FrameCache :=
  lruStart.insertAll [(⟨"A", 0⟩, ⟨524288, 1⟩), (⟨"B", 0⟩, ⟨524288, 2⟩)]

/-- A 1 MB cache filled to capacity by one frame of exactly 1 MB under key A. -/
def lruSingle : FrameCache := lruStart.insertFrame "A" 0 ⟨1048576, 1⟩

/-- A decoded 1920 x 1080 frame with four bytes per pixel: 8,294,400 bytes. -/
def fullHdFrame : QImage := ⟨8294400, 7⟩

/-- A fresh cache configured with `cacheAhead = 2` and `cacheBehind = 1`. -/
def windowStart : FrameCache := (FrameCache.new.setCacheAhead 2).setCacheBehind 1

/-- A decoder that always succeeds with the same half-megabyte frame. -/
def sampleDecode : String → Int → QImage := fun _ _ => ⟨524288, 1⟩

/-- A decoder that fails (null image) at timestamp 33 and succeeds elsewhere. -/
def flakyDecode : String → Int → QImage :=
  fun _ t => if t = 33 then QImage.null else ⟨524288, 1⟩

/-- A fresh cache with an empty prefetch window (`cacheAhead = cacheBehind = 0`). -/
def noWindow : FrameCache := (FrameCache.new.setCacheAhead 0).setCacheBehind 0

/-- Two `getFrame` misses for the same key on `noWindow`, no decode in between. -/
def pendingTwice : FrameCache :=
  ((noWindow.getFrame "clip.mp4" 0).2.getFrame "clip.mp4" 0).2

/-- The cache of `pendingTwice` after the worker has decoded the first pending
request with `sampleDecode` and the resulting `frameLoaded` event was handled. -/
def pendingAndCached : FrameCache :=
  match FrameLoader.iteration sampleDecode pendingTwice.frameLoader with
  | some (.frameLoaded p t frame, l) =>
      ({ pendingTwice with frameLoader := l }).handleFrameLoaded p t frame
  | _ => pendingTwice

/-- The timestamps the loop of `prefetchFrames` visits in `n` passes from `time`. -/
def prefetchTimes : Int → Nat → List Int
  | _, 0 => []
  | time, n + 1 => time :: prefetchTimes (time + 33) n

/-- A cache with `cacheAhead = 2`, `cacheBehind = 1` that holds the frame of
`("clip.mp4", 0)` and nothing else. -/
def windowHit : FrameCache := windowStart.insertFrame "clip.mp4" 0 ⟨524288, 1⟩

/-- Representation invariant of `QCache`: the hash holds each key once, and the
running total is the sum of the costs of the nodes. -/
def QCache.WF (q : QCache) : Prop :=
  q.keys.Nodup ∧ q.total = costSum q.nodes

/-! ## `ProxyManager` (`proxymanager.h`, `proxymanager.cpp`) -/

/-- Modelled from the spec: `QHash<QString, QString>` is Qt library code, not among
the sources. A hash without multiple insertion is a finite map: `none` stands for
an absent key. -/
def QHash : Type := String → Option String

/-- `QHash::value(key)`: the value of the key, or a default-constructed (empty)
string. -/
def QHash.value (h : QHash) (key : String) : String := (h key).getD ""

/-- `QHash::take(key)`: remove the key and return its value, or the empty string. -/
def QHash.take (h : QHash) (key : String) : String × QHash :=
  ((h key).getD "", fun k => if k = key then none else h k)

/-- `proxyFiles[key] = value`. -/
def QHash.insert (h : QHash) (key value : String) : QHash :=
  fun k => if k = key then some value else h k

/-- What `QFileInfo` reports about the paths of the file system. -/
structure FileSystem where
  fileExists : String → Bool
  isReadable : String → Bool

/-- The members of `ProxyManager` that the proxy map operations use, with the file
system the manager works on. -/
structure ProxyManager where
  proxyFiles : QHash
  files : FileSystem

/-- `ProxyManager::getProxyPath`. -/
def ProxyManager.getProxyPath (pm : ProxyManager) (sourceFile : String) : String :=
  pm.proxyFiles.value sourceFile

/-- `ProxyManager::hasProxy`. -/
def ProxyManager.hasProxy (pm : ProxyManager) (sourceFile : String) : Bool :=
  let proxyPath := pm.proxyFiles.value sourceFile
  if proxyPath.isEmpty then false
  else pm.files.fileExists proxyPath && pm.files.isReadable proxyPath

/-- `ProxyManager::removeProxy`; `qfileRemove` is the effect of `QFile::remove` on
the file system (its result is ignored by the source). -/
def ProxyManager.removeProxy (qfileRemove : FileSystem → String → FileSystem)
    (pm : ProxyManager) (sourceFile : String) : ProxyManager :=
  let r := pm.proxyFiles.take sourceFile
  if !r.1.isEmpty then { proxyFiles := r.2, files := qfileRemove pm.files r.1 }
  else { pm with proxyFiles := r.2 }

/-- A `QFile::remove` that deletes the file. -/
def deleteFile (fs : FileSystem) (path : String) : FileSystem :=
  { fs with fileExists := fun p => if p = path then false else fs.fileExists p }

/-- A manager with proxies recorded for `a.mp4` and `b.mp4`, both on disk. -/
def twoProxies : ProxyManager :=
  { proxyFiles :=
      QHash.insert (QHash.insert (fun _ => none) "a.mp4" "/cache/a_proxy.mp4") "b.mp4"
        "/cache/b_proxy.mp4",
    files := { fileExists := fun _ => true, isReadable := fun _ => true } }

/-! ## `VideoExporter` (`videoexporter.h`, `videoexporter.cpp`) -/

/-- The signals of `VideoExporter`. -/
inductive ExportSignal where
  | exportStarted
  | exportProgress (percent : Int)
  | exportFinished (success : Bool)
  | exportError (error : String)
  | exportCancelled
deriving DecidableEq, Repr

/-- `QProcess::ProcessError`. -/
inductive ProcessError where
  | FailedToStart | Crashed | Timedout | WriteError | ReadError | UnknownError
deriving DecidableEq, Repr

/-- What `startExport` asks of its environment: `QFileInfo` on the input file, the
directory of the output file, whether that directory exists or `mkpath` creates
it, whether the FFmpeg process comes up (`waitForStarted`), the error the process
signals through `QProcess::errorOccurred` when it does not come up (if it signals
one), and the argument list `buildFFmpegCommand` produces. -/
structure ExportEnv where
  fileExists : String → Bool
  isReadable : String → Bool
  dirOf : String → String
  dirExists : String → Bool
  mkpath : String → Bool
  waitForStarted : Bool
  errorOccurred : Option ProcessError
  buildFFmpegCommand : String → String → List String

/-- The members of `VideoExporter`: whether the export process is in a state other
than `NotRunning`, the progress timer, `progress` (only 0.0 is assigned by
`startExport`), `lastError`, and logs of the signals emitted and of the `ffmpeg`
processes started (their arguments). -/
structure VideoExporter where
  processRunning : Bool
  timerActive : Bool
  progress : Int
  lastError : String
  emitted : List ExportSignal
  processStarts : List (List String)
deriving DecidableEq, Repr

/-- `VideoExporter::VideoExporter`. -/
def VideoExporter.new : VideoExporter := ⟨false, false, 0, "", [], []⟩

/-- `VideoExporter::isExporting`. -/
def VideoExporter.isExporting (ve : VideoExporter) : Bool := ve.processRunning

/-- `VideoExporter::getLastError`. -/
def VideoExporter.getLastError (ve : VideoExporter) : String := ve.lastError

/-- `VideoExporter::reportError`. -/
def VideoExporter.reportError (ve : VideoExporter) (error : String) : VideoExporter :=
  { ve with lastError := error, emitted := ve.emitted ++ [.exportError error] }

/-- `VideoExporter::handleProcessError`, the slot the constructor connects to
`QProcess::errorOccurred`. -/
def VideoExporter.handleProcessError (ve : VideoExporter) (error : ProcessError) :
    VideoExporter :=
  ve.reportError
    (match error with
      | .FailedToStart => "Failed to start FFmpeg process"
      | .Crashed => "FFmpeg process crashed"
      | .Timedout => "FFmpeg process timed out"
      | .WriteError => "Failed to write to FFmpeg process"
      | .ReadError => "Failed to read from FFmpeg process"
      | .UnknownError => "Unknown FFmpeg process error")

/-- `VideoExporter::startExport`: the result and the exporter afterwards. When the
process does not come up, the error it signals reaches `handleProcessError` before
`startExport` reports its own message. -/
def VideoExporter.startExport (env : ExportEnv) (ve : VideoExporter)
    (inputFile outputFile : String) : Bool × VideoExporter :=
  if ve.isExporting then (false, ve.reportError "Export already in progress")
  else if !env.fileExists inputFile || !env.isReadable inputFile then
    (false, ve.reportError "Input file does not exist or is not readable")
  else if !env.dirExists (env.dirOf outputFile) && !env.mkpath (env.dirOf outputFile) then
    (false, ve.reportError "Cannot create output directory")
  else
    let arguments := env.buildFFmpegCommand inputFile outputFile
    let ve1 := { ve with processStarts := ve.processStarts ++ [arguments] }
    if !env.waitForStarted then
      let ve2 :=
        match env.errorOccurred with
        | some error => ve1.handleProcessError error
        | none => ve1
      (false, ve2.reportError "Failed to start FFmpeg process")
    else
      (true,
        { ve1 with processRunning := true, progress := 0, timerActive := true,
                   emitted := ve1.emitted ++ [.exportStarted] })

/-- An environment in which no file exists and every process would start. -/
def emptyDisk : ExportEnv :=
  { fileExists := fun _ => false, isReadable := fun _ => false, dirOf := fun p => p,
    dirExists := fun _ => true, mkpath := fun _ => true, waitForStarted := true,
    errorOccurred := none, buildFFmpegCommand := fun i o => ["-i", i, o] }

/-! ## `Animation` (`animation.h`, `animation.cpp`, `keyframe.h`) -/

/-- `enum class KeyframeType`. -/
inductive KeyframeType where
  | Position | Scale | Rotation | Opacity | Color
deriving DecidableEq, Repr

/-- A `Keyframe`: its type, its time and its value. Times are taken from a linear
order `α` (the `double` values without NaN), values from any type `β` (`QVariant`). -/
structure Keyframe (α β : Type) where
  type : KeyframeType
  time : α
  value : β

/-- The members of `Animation`, and the number of `keyframesChanged` signals
emitted. -/
structure Animation (α β : Type) where
  type : KeyframeType
  keyframes : List (Keyframe α β)
  changed : Nat

/-- Modelled from the spec: `std::lower_bound` is C++ standard library code, not
among the sources. With the comparison `kf.getTime() < t` it yields the position
of the first keyframe whose time is not below `t` (the end when there is none); on
a list sorted by time that is the number of leading keyframes with time below `t`. -/
def lowerBound {α β : Type} [LinearOrder α] (keyframes : List (Keyframe α β)) (t : α) : Nat :=
  (keyframes.takeWhile (fun kf => decide (kf.time < t))).length

/-- `QList::insert(it, value)`: insert before position `i`. -/
def insertAt {γ : Type} (l : List γ) (i : Nat) (x : γ) : List γ :=
  l.take i ++ x :: l.drop i

/-- `it->setValue(value)` on the keyframe at position `i`. -/
def setValueAt {α β : Type} : List (Keyframe α β) → Nat → β → List (Keyframe α β)
  | [], _, _ => []
  | kf :: rest, 0, v => { kf with value := v } :: rest
  | kf :: rest, i + 1, v => kf :: setValueAt rest i v

/-- `Animation::addKeyframe`; `fuzzy` is `qFuzzyCompare` on two times. -/
def Animation.addKeyframe {α β : Type} [LinearOrder α] (fuzzy : α → α → Bool)
    (a : Animation α β) (time : α) (value : β) : Animation α β :=
  let it := lowerBound a.keyframes time
  match a.keyframes.get? it with
  | some kf =>
      if fuzzy kf.time time then
        { a with keyframes := setValueAt a.keyframes it value, changed := a.changed + 1 }
      else
        { a with keyframes := insertAt a.keyframes it ⟨a.type, time, value⟩,
                 changed := a.changed + 1 }
  | none =>
      { a with keyframes := insertAt a.keyframes it ⟨a.type, time, value⟩,
               changed := a.changed + 1 }

/-- `Animation::removeKeyframe`. -/
def Animation.removeKeyframe {α β : Type} (a : Animation α β) (index : Int) :
    Animation α β :=
  if 0 ≤ index ∧ index < a.keyframes.length then
    { a with keyframes := a.keyframes.eraseIdx index.toNat, changed := a.changed + 1 }
  else a

/-- `Animation::updateKeyframe`. -/
def Animation.updateKeyframe {α β : Type} [LinearOrder α] (a : Animation α β) (index : Int)
    (time : α) (value : β) : Animation α β :=
  if 0 ≤ index ∧ index < a.keyframes.length then
    match a.keyframes.get? index.toNat with
    | some kf0 =>
        let rest := a.keyframes.eraseIdx index.toNat
        let kf : Keyframe α β := { kf0 with time := time, value := value }
        { a with keyframes := insertAt rest (lowerBound rest time) kf,
                 changed := a.changed + 1 }
    | none => a
  else a

/-- The keyframe list is sorted by non-decreasing time. -/
def Animation.sorted {α β : Type} [LinearOrder α] (a : Animation α β) : Prop :=
  a.keyframes.Pairwise (fun x y => x.time ≤ y.time)

/-- An opacity animation with keyframes at the times 0, 10, 10 and 20. -/
def sampleAnimation : Animation Int Nat :=
  { type := KeyframeType.Opacity,
    keyframes := [⟨.Opacity, 0, 1⟩, ⟨.Opacity, 10, 2⟩, ⟨.Opacity, 10, 3⟩, ⟨.Opacity, 20, 4⟩],
    changed := 0 }

/-- The `qFuzzyCompare` of times that are integers: equality. -/
def sameTime (x y : Int) : Bool := decide (x = y)

/-! ## Definitions for the later statements about the frame cache -/

/-- The cache after one request for `("clip.mp4", 0)` was enqueued by a miss. -/
def pendingOnce : FrameCache := (noWindow.getFrame "clip.mp4" 0).2

/-- Two states of the cache object that differ at most in the loader: same cache
(entries, order, costs, budget), same counters, same configuration, same signals. -/
def FrameCache.sameButLoader (a b : FrameCache) : Prop :=
  a.frameCache = b.frameCache ∧ a.cacheHits = b.cacheHits ∧ a.cacheMisses = b.cacheMisses ∧
    a.maxCacheSize = b.maxCacheSize ∧ a.cacheAhead = b.cacheAhead ∧
    a.cacheBehind = b.cacheBehind ∧ a.emitted = b.emitted

/-! ## The worker thread of `FrameLoader`, statement by statement -/

/-- The position of the worker thread inside `FrameLoader::run`. -/
inductive WorkerPhase where
  /-- About to evaluate the loop condition `while (running)`. -/
  | loopTest
  /-- The loop condition held; about to take the mutex and look at the queue. -/
  | lockQueue
  /-- Out of the locked block with a dequeued request; `loadFrame` is not yet
  called. -/
  | dequeued (request : LoadRequest)
  /-- Out of `run()`; the thread is not yet marked as finished. -/
  | returned
deriving DecidableEq, Repr

/-- Modelled from the spec: the thread behind `FrameLoader` is Qt's `QThread`,
which is not among the sources. It is the lazily started worker of the spec
(started by an enqueue when it is not running, ending by itself when the queue is
empty), with the life cycle of Qt 5: `start()` makes `isRunning()` true and
executes `run()` on the new thread, and `isRunning()` stays true after `run()` has
returned until the thread has finished. `phase` is the position of the thread in
`run()`; it carries no information while `loader.isRunning` is false. -/
structure LoaderThread where
  loader : FrameLoader
  phase : WorkerPhase
deriving DecidableEq, Repr

/-- A freshly constructed loader: the thread is not started. -/
def LoaderThread.new : LoaderThread := ⟨FrameLoader.new, .loopTest⟩

/-- One step of the worker thread, following `FrameLoader::run` statement by
statement: the loop condition (read outside the mutex), the locked block (queue
test and dequeue), the call of `loadFrame` with the emission of its signal, and
the end of the thread after `run()` has returned. The first component is the
request handed to `loadFrame` in this step together with the signal emitted for
it, if the step is that call. A thread that is not running does nothing. -/
def LoaderThread.step (decode : String → Int → QImage) (s : LoaderThread) :
    Option (LoadRequest × LoaderEvent) × LoaderThread :=
  if s.loader.isRunning then
    match s.phase with
    | .loopTest =>
        if s.loader.running then (none, { s with phase := .lockQueue })
        else (none, { s with phase := .returned })
    | .lockQueue =>
        match s.loader.requestQueue with
        | [] => (none, { s with phase := .returned })
        | request :: rest =>
            (none, { loader := { s.loader with requestQueue := rest },
                     phase := .dequeued request })
    | .dequeued request =>
        (some (request, FrameLoader.process decode request), { s with phase := .loopTest })
    | .returned =>
        (none, { loader := { s.loader with isRunning := false }, phase := .loopTest })
  else (none, s)

/-- `FrameLoader::requestFrame` seen together with the thread: the request is
enqueued under the mutex, and when `isRunning()` is false `start()` begins a new
execution of `run()`. -/
def LoaderThread.requestFrame (s : LoaderThread) (filePath : String) (timestamp : Int) :
    LoaderThread :=
  { loader := s.loader.requestFrame filePath timestamp,
    phase := if s.loader.isRunning then s.phase else .loopTest }

/-- `FrameLoader::stop` seen together with the thread: it changes the members
under the mutex and does not wait for the thread. -/
def LoaderThread.stop (s : LoaderThread) : LoaderThread :=
  { s with loader := s.loader.stop }

/-- What the two threads can do next: the worker takes one step, or the thread of
the caller runs `requestFrame` or `stop` (both hold the mutex for their whole
body, so each is one step against the locked block of the worker). -/
inductive ThreadAction where
  | workerStep
  | requestFrame (filePath : String) (timestamp : Int)
  | stop
deriving DecidableEq, Repr

/-- Carry out one action. -/
def LoaderThread.act (decode : String → Int → QImage) (s : LoaderThread) :
    ThreadAction → Option (LoadRequest × LoaderEvent) × LoaderThread
  | .workerStep => s.step decode
  | .requestFrame filePath timestamp => (none, s.requestFrame filePath timestamp)
  | .stop => (none, s.stop)

/-- Carry out a schedule, an interleaving of worker steps and calls, in list
order: the calls of `loadFrame` made, each with the signal emitted for it, and the
state afterwards. -/
def LoaderThread.exec (decode : String → Int → QImage) :
    List ThreadAction → LoaderThread → List (LoadRequest × LoaderEvent) × LoaderThread
  | [], s => ([], s)
  | a :: rest, s =>
      let r := s.act decode a
      let r2 := LoaderThread.exec decode rest r.2
      (r.1.toList ++ r2.1, r2.2)

/-- The worker alone: `n` consecutive steps with no call in between. -/
def LoaderThread.steps (decode : String → Int → QImage) (n : Nat) (s : LoaderThread) :
    List (LoadRequest × LoaderEvent) × LoaderThread :=
  LoaderThread.exec decode (List.replicate n ThreadAction.workerStep) s

/-- The worker has found the queue empty and left the loop; no `stop()` was
called, and the thread is not yet marked as finished. -/
def exitedLoop : LoaderThread := ⟨⟨[], true, true⟩, .returned⟩

/-! ## Inputs beyond the range of `int` and `qint64` -/

/-- A frame of 2^31 bytes (for instance 23171 x 23171 pixels of four bytes hold
more): its byte size does not fit the `int` cost. -/
def hugeFrame : QImage := ⟨2147483648, 9⟩

/-- A run under a 1 MB budget: a frame of 2^31 bytes for key A, two frames of 1 MB
for the keys B and C, then a frame of 8,294,400 bytes for key A again. -/
def negativeCostRun : List CacheOp :=
  [.setMaxCacheSize 1, .insertFrame "A" 0 hugeFrame, .insertFrame "B" 0 ⟨1048576, 2⟩,
   .insertFrame "C" 0 ⟨1048576, 3⟩, .insertFrame "A" 0 fullHdFrame]

/-! # Theorems -/

/-! ## Lemmas on `QCache` -/

theorem costSum_nil : costSum [] = 0 := rfl

theorem costSum_cons (n : CacheNode) (ns : List CacheNode) :
    costSum (n :: ns) = n.c + costSum ns := by
  simp [costSum]

theorem costSum_append (xs ys : List CacheNode) :
    costSum (xs ++ ys) = costSum xs + costSum ys := by
  simp [costSum]

theorem trimLoop_noop (m : Int) (ns : List CacheNode) (t : Int) (h : t ≤ m) :
    QCache.trimLoop m ns t = (ns, t) := by
  cases ns with
  | nil => rfl
  | cons u rest =>
      have h2 : ¬ t > m := not_lt.mpr h
      simp [QCache.trimLoop, h2]

theorem trimLoop_sum (m : Int) (ns : List CacheNode) (t : Int) :
    (QCache.trimLoop m ns t).2 - costSum (QCache.trimLoop m ns t).1 = t - costSum ns := by
  induction ns generalizing t with
  | nil => rfl
  | cons u rest ih =>
      unfold QCache.trimLoop
      split
      · rw [ih, costSum_cons]; ring
      · rfl

theorem trimLoop_suffix (m : Int) (ns : List CacheNode) (t : Int) :
    (QCache.trimLoop m ns t).1 <:+ ns := by
  induction ns generalizing t with
  | nil => exact List.suffix_refl _
  | cons u rest ih =>
      unfold QCache.trimLoop
      split
      · exact (ih _).trans (List.suffix_cons u rest)
      · exact List.suffix_refl _

theorem trimLoop_post (m : Int) (ns : List CacheNode) (t : Int) :
    (QCache.trimLoop m ns t).2 ≤ m ∨ (QCache.trimLoop m ns t).1 = [] := by
  induction ns generalizing t with
  | nil => right; rfl
  | cons u rest ih =>
      unfold QCache.trimLoop
      split
      · exact ih _
      · left; simpa using (by assumption : ¬ t > m)

theorem find_eraseP_costSum (k : CacheKey) (ns : List CacheNode) (n : CacheNode)
    (h : ns.find? (fun x => decide (x.key = k)) = some n) :
    costSum (ns.eraseP (fun x => decide (x.key = k))) + n.c = costSum ns := by
  induction ns with
  | nil => simp at h
  | cons u rest ih =>
      by_cases hu : u.key = k
      · simp [List.find?, hu] at h
        subst h
        simp [List.eraseP, hu, costSum_cons]; ring
      · simp [List.find?, hu] at h
        simp [List.eraseP, hu, costSum_cons]
        have := ih h
        linarith

theorem find_mem (k : CacheKey) (ns : List CacheNode) (n : CacheNode)
    (h : ns.find? (fun x => decide (x.key = k)) = some n) : n ∈ ns ∧ n.key = k := by
  have h1 := List.mem_of_find?_eq_some h
  have h2 := List.find?_some h
  exact ⟨h1, by simpa using h2⟩

theorem find_none_of_not_mem (k : CacheKey) (ns : List CacheNode)
    (h : k ∉ ns.map CacheNode.key) :
    ns.find? (fun x => decide (x.key = k)) = none := by
  rw [List.find?_eq_none]
  intro x hx
  simp only [decide_eq_true_eq]
  intro hk
  exact h (List.mem_map.mpr ⟨x, hx, hk⟩)

theorem QCache.trim_total (q : QCache) (m : Int) (h : q.total = costSum q.nodes) :
    (q.trim m).total = costSum (q.trim m).nodes := by
  have := trimLoop_sum m q.nodes q.total
  simp only [QCache.trim]
  linarith

theorem QCache.trim_mem (q : QCache) (m : Int) (n : CacheNode) (h : n ∈ (q.trim m).nodes) :
    n ∈ q.nodes :=
  (trimLoop_suffix m q.nodes q.total).subset h

theorem QCache.trim_le (q : QCache) (m : Int) (h : q.total = costSum q.nodes) (hm : 0 ≤ m) :
    (q.trim m).total ≤ m := by
  rcases trimLoop_post m q.nodes q.total with h1 | h1
  · exact h1
  · have h2 := q.trim_total m h
    have h3 : (q.trim m).nodes = [] := h1
    rw [h3] at h2
    simpa [h2, costSum] using hm

theorem QCache.remove_inv (q : QCache) (k : CacheKey) (h : q.Inv) : (q.remove k).Inv := by
  obtain ⟨h1, h2, h3, h4⟩ := h
  unfold QCache.remove
  split
  · exact ⟨h1, h2, h3, h4⟩
  · rename_i n hn
    have hs := find_eraseP_costSum k q.nodes n hn
    have hc := h2 n (find_mem k q.nodes n hn).1
    refine ⟨?_, ?_, ?_, h4⟩
    · simp only; linarith
    · intro x hx
      exact h2 x (List.mem_of_mem_eraseP hx)
    · simp only; linarith

theorem QCache.insert_inv (q : QCache) (k : CacheKey) (obj : QImage) (acost : Int)
    (h : q.Inv) (hc : 0 ≤ acost) : (q.insert k obj acost).Inv := by
  have hr := q.remove_inv k h
  obtain ⟨h1, h2, h3, h4⟩ := hr
  unfold QCache.insert
  simp only
  split
  · exact ⟨h1, h2, h3, h4⟩
  · rename_i hgt
    have hle : acost ≤ (q.remove k).mx := not_lt.mp hgt
    have ht := (q.remove k).trim_total ((q.remove k).mx - acost) h1
    have hl := (q.remove k).trim_le ((q.remove k).mx - acost) h1 (by linarith)
    refine ⟨?_, ?_, ?_, ?_⟩
    · simp only [costSum_append, costSum_cons]
      rw [ht]; simp [costSum]
    · intro x hx
      rcases List.mem_append.mp hx with hx | hx
      · exact h2 x ((q.remove k).trim_mem _ x hx)
      · simp only [List.mem_singleton] at hx
        subst hx; exact hc
    · show ((q.remove k).trim ((q.remove k).mx - acost)).total + acost ≤ (q.remove k).mx
      linarith
    · exact h4

theorem QCache.object_inv (q : QCache) (k : CacheKey) (h : q.Inv) : (q.object k).2.Inv := by
  obtain ⟨h1, h2, h3, h4⟩ := h
  unfold QCache.object
  split
  · exact ⟨h1, h2, h3, h4⟩
  · rename_i n hn
    have hs := find_eraseP_costSum k q.nodes n hn
    refine ⟨?_, ?_, h3, h4⟩
    · simp only [costSum_append, costSum_cons, costSum_nil]
      linarith
    · intro x hx
      rcases List.mem_append.mp hx with hx | hx
      · exact h2 x (List.mem_of_mem_eraseP hx)
      · simp only [List.mem_singleton] at hx
        subst hx; exact h2 _ (find_mem k q.nodes _ hn).1

theorem QCache.setMaxCost_inv (q : QCache) (m : Int) (h : q.Inv) (hm : 0 ≤ m) :
    (q.setMaxCost m).Inv := by
  obtain ⟨h1, h2, _, _⟩ := h
  unfold QCache.setMaxCost
  refine ⟨QCache.trim_total _ m h1, ?_, QCache.trim_le _ m h1 hm, hm⟩
  intro x hx
  exact h2 x (QCache.trim_mem _ m x hx)

theorem QCache.remove_mx (q : QCache) (k : CacheKey) : (q.remove k).mx = q.mx := by
  unfold QCache.remove
  split <;> rfl

theorem QCache.insert_mx (q : QCache) (k : CacheKey) (obj : QImage) (acost : Int) :
    (q.insert k obj acost).mx = q.mx := by
  unfold QCache.insert
  simp only
  split
  · exact q.remove_mx k
  · exact q.remove_mx k

theorem QCache.object_mx (q : QCache) (k : CacheKey) : (q.object k).2.mx = q.mx := by
  unfold QCache.object
  split <;> rfl

theorem QCache.setMaxCost_mx (q : QCache) (m : Int) : (q.setMaxCost m).mx = m := rfl

theorem wrapInt32_megabytes (m : Int) (h0 : 0 ≤ m) (h1 : m ≤ 2047) :
    wrapInt32 (wrapInt32 (m * 1024) * 1024) = m * 1048576 := by
  unfold wrapInt32
  split <;> split <;> omega

theorem insertCost_of_lt (f : QImage) (h : f.sizeInBytes < 2147483648) :
    insertCost f = (f.sizeInBytes : Int) := by
  unfold insertCost wrapInt32
  split <;> omega

/-! ## Lemmas on `FrameCache` -/

theorem foldl_prefetchFrame (p : String) (g : Nat → Int) (idx : List Nat) (fc : FrameCache) :
    idx.foldl (fun s i => s.prefetchFrame p (g i)) fc =
      { fc with frameLoader := (idx.foldl
          (fun l i => if fc.frameCache.contains ⟨p, g i⟩ then l else l.requestFrame p (g i))
          fc.frameLoader) } := by
  induction idx generalizing fc with
  | nil => rfl
  | cons i rest ih =>
      simp only [List.foldl_cons]
      rw [ih]
      unfold FrameCache.prefetchFrame
      by_cases h : fc.frameCache.contains ⟨p, g i⟩ = true
      · simp [h]
      · simp [h]

theorem QCache.contains_eq_false_iff (q : QCache) (k : CacheKey) :
    q.contains k = false ↔ k ∉ q.keys := by
  simp [QCache.contains, QCache.keys]

theorem QCache.contains_eq_true_iff (q : QCache) (k : CacheKey) :
    q.contains k = true ↔ k ∈ q.keys := by
  simp [QCache.contains, QCache.keys]

theorem QCache.object_miss (q : QCache) (k : CacheKey) (h : q.contains k = false) :
    q.object k = (none, q) := by
  have hf := find_none_of_not_mem k q.nodes ((q.contains_eq_false_iff k).mp h)
  simp [QCache.object, hf]

theorem FrameCache.getFrame_miss (fc : FrameCache) (p : String) (t : Int)
    (h : fc.frameCache.contains ⟨p, t⟩ = false) :
    fc.getFrame p t =
      (QImage.null,
        { fc with cacheMisses := fc.cacheMisses + 1, frameLoader := fc.missLoader p t }) := by
  unfold FrameCache.getFrame
  rw [QCache.object_miss _ _ h]
  simp only
  rw [foldl_prefetchFrame p (fun i => wrapInt64 (t + ((i : Int) + 1) * frameInterval))]
  simp only
  rw [foldl_prefetchFrame p (fun i => wrapInt64 (t - ((i : Int) + 1) * frameInterval))]
  simp only [FrameCache.missLoader]

theorem FrameCache.getFrame_frameCache (fc : FrameCache) (p : String) (t : Int) :
    (fc.getFrame p t).2.frameCache = (fc.frameCache.object ⟨p, t⟩).2 ∧
    (fc.getFrame p t).2.maxCacheSize = fc.maxCacheSize := by
  by_cases h : fc.frameCache.contains ⟨p, t⟩ = false
  · rw [FrameCache.getFrame_miss fc p t h, QCache.object_miss _ _ h]
    exact ⟨rfl, rfl⟩
  · unfold FrameCache.getFrame
    have hk : (⟨p, t⟩ : CacheKey) ∈ fc.frameCache.keys := by
      by_contra hk
      exact h ((fc.frameCache.contains_eq_false_iff _).mpr hk)
    unfold QCache.object
    cases hf : fc.frameCache.nodes.find? (fun n => decide (n.key = ⟨p, t⟩)) with
    | none =>
        exfalso
        rw [List.find?_eq_none] at hf
        obtain ⟨n, hn, hnk⟩ := List.mem_map.mp hk
        exact hf n hn (by simpa using hnk)
    | some n => exact ⟨rfl, rfl⟩

theorem FrameCache.insertFrame_frameCache (fc : FrameCache) (p : String) (t : Int)
    (f : QImage) :
    (fc.insertFrame p t f).frameCache = fc.frameCache.insert ⟨p, t⟩ f (insertCost f) := by
  simp only [FrameCache.insertFrame]

theorem FrameCache.insertFrame_maxCacheSize (fc : FrameCache) (p : String) (t : Int)
    (f : QImage) : (fc.insertFrame p t f).maxCacheSize = fc.maxCacheSize := by
  simp only [FrameCache.insertFrame]

theorem FrameCache.handleFrameLoaded_frameCache (fc : FrameCache) (p : String) (t : Int)
    (f : QImage) :
    (fc.handleFrameLoaded p t f).frameCache = fc.frameCache.insert ⟨p, t⟩ f (insertCost f) := by
  simp only [FrameCache.handleFrameLoaded, FrameCache.insertFrame]

theorem FrameCache.handleFrameLoaded_maxCacheSize (fc : FrameCache) (p : String) (t : Int)
    (f : QImage) : (fc.handleFrameLoaded p t f).maxCacheSize = fc.maxCacheSize := by
  simp only [FrameCache.handleFrameLoaded, FrameCache.insertFrame]

theorem FrameCache.budgetInv_congr (a b : FrameCache) (h1 : a.frameCache = b.frameCache)
    (h2 : a.maxCacheSize = b.maxCacheSize) (h : a.BudgetInv) : b.BudgetInv := by
  unfold FrameCache.BudgetInv at h ⊢
  rw [← h1, ← h2]
  exact h

theorem FrameCache.new_budgetInv : FrameCache.new.BudgetInv := by
  refine ⟨⟨?_, ?_, ?_, ?_⟩, ?_, ?_, ?_⟩ <;> decide

theorem FrameCache.insertFrame_budgetInv (fc : FrameCache) (p : String) (t : Int)
    (f : QImage) (h : fc.BudgetInv) (hf : f.sizeInBytes < 2147483648) :
    (fc.insertFrame p t f).BudgetInv := by
  obtain ⟨h1, h2, h3, h4⟩ := h
  have hc : 0 ≤ insertCost f := by rw [insertCost_of_lt f hf]; exact Int.ofNat_nonneg _
  have hi := fc.frameCache.insert_inv ⟨p, t⟩ f (insertCost f) h1 hc
  have hmx := fc.frameCache.insert_mx ⟨p, t⟩ f (insertCost f)
  unfold FrameCache.BudgetInv
  rw [FrameCache.insertFrame_frameCache, FrameCache.insertFrame_maxCacheSize]
  exact ⟨hi, hmx.trans h2, h3, h4⟩

theorem FrameCache.applyOp_budgetInv (fc : FrameCache) (op : CacheOp) (h : fc.BudgetInv)
    (hop : op.inRange) : (fc.applyOp op).BudgetInv := by
  cases op with
  | insertFrame p t f => exact fc.insertFrame_budgetInv p t f h hop
  | handleFrameLoaded p t f =>
      refine FrameCache.budgetInv_congr (fc.insertFrame p t f) _ ?_ ?_
        (fc.insertFrame_budgetInv p t f h hop)
      · simp only [FrameCache.applyOp]
        rw [FrameCache.handleFrameLoaded_frameCache, FrameCache.insertFrame_frameCache]
      · simp only [FrameCache.applyOp]
        rw [FrameCache.handleFrameLoaded_maxCacheSize, FrameCache.insertFrame_maxCacheSize]
  | getFrame p t =>
      obtain ⟨h1, h2, h3, h4⟩ := h
      have hg := fc.getFrame_frameCache p t
      have ho := fc.frameCache.object_inv ⟨p, t⟩ h1
      have hmx := fc.frameCache.object_mx ⟨p, t⟩
      refine ⟨?_, ?_, ?_, ?_⟩
      · show ((fc.getFrame p t).2.frameCache).Inv
        rw [hg.1]; exact ho
      · show (fc.getFrame p t).2.frameCache.mx = (fc.getFrame p t).2.maxCacheSize * 1048576
        rw [hg.1, hg.2, hmx]; exact h2
      · show 0 ≤ (fc.getFrame p t).2.maxCacheSize
        rw [hg.2]; exact h3
      · show (fc.getFrame p t).2.maxCacheSize ≤ 2047
        rw [hg.2]; exact h4
  | setMaxCacheSize m =>
      obtain ⟨h1, _, _, _⟩ := h
      obtain ⟨hm0, hm1⟩ := hop
      have hw := wrapInt32_megabytes m hm0 hm1
      refine ⟨?_, ?_, hm0, hm1⟩
      · show (fc.frameCache.setMaxCost (wrapInt32 (wrapInt32 (m * 1024) * 1024))).Inv
        rw [hw]
        exact fc.frameCache.setMaxCost_inv _ h1 (by omega)
      · show (fc.frameCache.setMaxCost (wrapInt32 (wrapInt32 (m * 1024) * 1024))).mx = m * 1048576
        rw [hw]; rfl

theorem FrameCache.foldl_applyOp_budgetInv (ops : List CacheOp) (fc : FrameCache)
    (h : fc.BudgetInv) (hops : ∀ op ∈ ops, op.inRange) :
    (ops.foldl FrameCache.applyOp fc).BudgetInv := by
  induction ops generalizing fc with
  | nil => exact h
  | cons op rest ih =>
      simp only [List.foldl_cons]
      exact ih _ (fc.applyOp_budgetInv op h (hops op (List.mem_cons_self _ _)))
        (fun o ho => hops o (List.mem_cons_of_mem _ ho))

/-- C1 (amended). Budget invariant: from a freshly constructed cache, after any
sequence of `insertFrame` / `handleFrameLoaded`, `getFrame` and `setMaxCacheSize(m)`
calls with `0 ≤ m ≤ 2047` in which every inserted frame has a byte size below 2^31
(so that its `int` cost is its byte size), the total cost of the entries held is at
most the configured megabytes times 1,048,576, and so
`getCacheSize() ≤ getMaxCacheSize()`. A sequence includes each of its beginnings,
so the bound holds after every operation. -/
theorem C1_budget_invariant (ops : List CacheOp) (hops : ∀ op ∈ ops, op.inRange) :
    (ops.foldl FrameCache.applyOp FrameCache.new).frameCache.totalCost ≤
        (ops.foldl FrameCache.applyOp FrameCache.new).getMaxCacheSize * 1048576 ∧
      costSum (ops.foldl FrameCache.applyOp FrameCache.new).frameCache.nodes =
        (ops.foldl FrameCache.applyOp FrameCache.new).frameCache.totalCost ∧
      (ops.foldl FrameCache.applyOp FrameCache.new).getCacheSize ≤
        (ops.foldl FrameCache.applyOp FrameCache.new).getMaxCacheSize := by
  obtain ⟨⟨h1, h2, h3, h4⟩, h5, h6, h7⟩ :=
    FrameCache.foldl_applyOp_budgetInv ops FrameCache.new FrameCache.new_budgetInv hops
  refine ⟨?_, h1.symm, ?_⟩
  · show (ops.foldl FrameCache.applyOp FrameCache.new).frameCache.total ≤ _
    unfold FrameCache.getMaxCacheSize
    rw [← h5]; exact h3
  · unfold FrameCache.getCacheSize FrameCache.getMaxCacheSize QCache.totalCost
    have hb : (ops.foldl FrameCache.applyOp FrameCache.new).frameCache.total ≤
        (ops.foldl FrameCache.applyOp FrameCache.new).maxCacheSize * 1048576 := by
      rw [← h5]; exact h3
    have h0 : 0 ≤ (ops.foldl FrameCache.applyOp FrameCache.new).frameCache.total := by
      rw [h1]
      unfold costSum
      apply List.sum_nonneg
      intro x hx
      obtain ⟨n, hn, rfl⟩ := List.mem_map.mp hx
      exact h2 n hn
    have hd : (1024 : Int) * 1024 = 1048576 := by norm_num
    rw [hd]
    rw [Int.tdiv_eq_ediv h0 (by norm_num)]
    omega

theorem C1_budget_invariant_witness :
    (∀ op ∈ budgetRun, op.inRange) ∧
      (budgetRun.foldl FrameCache.applyOp FrameCache.new).frameCache.totalCost ≤
        (budgetRun.foldl FrameCache.applyOp FrameCache.new).getMaxCacheSize * 1048576 ∧
      costSum (budgetRun.foldl FrameCache.applyOp FrameCache.new).frameCache.nodes =
        (budgetRun.foldl FrameCache.applyOp FrameCache.new).frameCache.totalCost ∧
      (budgetRun.foldl FrameCache.applyOp FrameCache.new).getCacheSize ≤
        (budgetRun.foldl FrameCache.applyOp FrameCache.new).getMaxCacheSize :=
  ⟨by simp [budgetRun, CacheOp.inRange],
    C1_budget_invariant budgetRun (by simp [budgetRun, CacheOp.inRange])⟩

/-- C1, counterexample. A frame of 2^31 bytes gets the `int` cost -2^31. Under a
budget of 1 MB it is kept, two frames of 1 MB enter beside it, and when its key is
inserted again with a frame that the cache refuses, the removal of the old entry
leaves a total cost of 2,097,152 over a budget of 1,048,576: `getCacheSize()` is 2
and `getMaxCacheSize()` is 1. -/
theorem C1_counterexample_frame_of_two_gigabytes :
    insertCost hugeFrame = -2147483648 ∧
      ((negativeCostRun.take 2).foldl FrameCache.applyOp FrameCache.new).frameCache.contains
        ⟨"A", 0⟩ = true ∧
      (negativeCostRun.foldl FrameCache.applyOp FrameCache.new).frameCache.totalCost =
        2097152 ∧
      (negativeCostRun.foldl FrameCache.applyOp FrameCache.new).getMaxCacheSize = 1 ∧
      (negativeCostRun.foldl FrameCache.applyOp FrameCache.new).getCacheSize = 2 ∧
      ¬ ((negativeCostRun.foldl FrameCache.applyOp FrameCache.new).frameCache.totalCost ≤
        (negativeCostRun.foldl FrameCache.applyOp FrameCache.new).getMaxCacheSize * 1048576) ∧
      ¬ ((negativeCostRun.foldl FrameCache.applyOp FrameCache.new).getCacheSize ≤
        (negativeCostRun.foldl FrameCache.applyOp FrameCache.new).getMaxCacheSize) := by
  decide

theorem FrameCache.insertAll_frameCache (rs : List (CacheKey × QImage)) (fc : FrameCache) :
    (fc.insertAll rs).frameCache =
      rs.foldl (fun q r => q.insert r.1 r.2 (insertCost r.2)) fc.frameCache := by
  induction rs generalizing fc with
  | nil => rfl
  | cons r rest ih =>
      simp only [FrameCache.insertAll, List.foldl_cons] at ih ⊢
      rw [ih, FrameCache.insertFrame_frameCache]

theorem QCache.remove_absent (q : QCache) (k : CacheKey) (h : k ∉ q.keys) : q.remove k = q := by
  have hf := find_none_of_not_mem k q.nodes h
  simp [QCache.remove, hf]

theorem QCache.insert_fresh (q : QCache) (k : CacheKey) (obj : QImage) (acost : Int)
    (hk : k ∉ q.keys) (hfit : q.total ≤ q.mx - acost) (hle : acost ≤ q.mx) :
    q.insert k obj acost =
      { q with nodes := q.nodes ++ [⟨k, obj, acost⟩], total := q.total + acost } := by
  unfold QCache.insert
  rw [q.remove_absent k hk]
  have h1 : ¬ acost > q.mx := not_lt.mpr hle
  simp only [h1, if_false, QCache.trim]
  rw [trimLoop_noop _ _ _ hfit]

theorem QCache.insert_evict_one (q : QCache) (k : CacheKey) (obj : QImage) (acost : Int)
    (u : CacheNode) (rest : List CacheNode) (hk : k ∉ q.keys) (hn : q.nodes = u :: rest)
    (hle : acost ≤ q.mx) (hover : q.mx - acost < q.total)
    (hfit : q.total - u.c ≤ q.mx - acost) :
    q.insert k obj acost =
      { q with nodes := rest ++ [⟨k, obj, acost⟩], total := q.total - u.c + acost } := by
  unfold QCache.insert
  rw [q.remove_absent k hk]
  have h1 : ¬ acost > q.mx := not_lt.mpr hle
  simp only [h1, if_false, QCache.trim]
  rw [hn]
  have h2 : QCache.trimLoop (q.mx - acost) (u :: rest) q.total = (rest, q.total - u.c) := by
    unfold QCache.trimLoop
    simp only [gt_iff_lt, hover, if_true]
    exact trimLoop_noop _ _ _ hfit
  rw [h2]

theorem QCache.foldl_insert_fill (c : Int) (rs : List (CacheKey × QImage)) (q : QCache)
    (hc : 0 ≤ c) (hcost : ∀ r ∈ rs, insertCost r.2 = c) (hnodup : (rs.map Prod.fst).Nodup)
    (hdisj : ∀ r ∈ rs, r.1 ∉ q.keys) (hfit : q.total + rs.length * c ≤ q.mx)
    (ht : 0 ≤ q.total) :
    rs.foldl (fun q r => q.insert r.1 r.2 (insertCost r.2)) q =
      { q with nodes := q.nodes ++ rs.map (fun r => ⟨r.1, r.2, c⟩),
               total := q.total + rs.length * c } := by
  induction rs generalizing q with
  | nil => simp
  | cons r rest ih =>
      have hlen : ((r :: rest).length : Int) = rest.length + 1 := by simp
      rw [hlen] at hfit
      have hrc := hcost r (List.mem_cons_self _ _)
      have hprod : 0 ≤ (rest.length : Int) * c := mul_nonneg (Int.ofNat_nonneg _) hc
      have hstep := q.insert_fresh r.1 r.2 c (hdisj r (List.mem_cons_self _ _))
        (by linarith) (by linarith)
      simp only [List.foldl_cons, hrc, hstep]
      simp only [List.map_cons, List.nodup_cons] at hnodup
      rw [ih _ (fun x hx => hcost x (List.mem_cons_of_mem _ hx)) hnodup.2]
      · simp only [List.map_cons, List.append_assoc, List.singleton_append, hlen]
        congr 1
        ring
      · intro x hx
        simp only [QCache.keys, List.map_append, List.map_cons, List.map_nil, List.mem_append,
          List.mem_singleton, not_or]
        refine ⟨hdisj x (List.mem_cons_of_mem _ hx), ?_⟩
        intro hxr
        exact hnodup.1 (hxr ▸ List.mem_map_of_mem Prod.fst hx)
      · show q.total + c + rest.length * c ≤ q.mx
        linarith
      · show 0 ≤ q.total + c
        linarith

/-- C2. LRU eviction order: in a cache that is empty and has byte budget `B` with
`N * c ≤ B < (N + 1) * c`, `N ≥ 1`, `c > 0`, inserting `N + 1` frames of cost `c`
under distinct keys, with no lookup in between, leaves exactly the last `N` keys
(in insertion order) with total cost `N * c`: the first key inserted is gone and
every other one is still held. -/
theorem C2_lru_eviction_order (N : Nat) (c B : Int) (fc : FrameCache)
    (rs : List (CacheKey × QImage))
    (hN : 1 ≤ N) (hc : 0 < c) (hlow : N * c ≤ B) (hhigh : B < (N + 1) * c)
    (hnodes : fc.frameCache.nodes = []) (htotal : fc.frameCache.total = 0)
    (hmx : fc.frameCache.mx = B) (hlen : rs.length = N + 1)
    (hcost : ∀ r ∈ rs, insertCost r.2 = c) (hkeys : (rs.map Prod.fst).Nodup) :
    (fc.insertAll rs).frameCache.keys = (rs.map Prod.fst).tail ∧
      (∀ r ∈ rs.head?, (fc.insertAll rs).frameCache.contains r.1 = false) ∧
      (∀ r ∈ rs.tail, (fc.insertAll rs).frameCache.contains r.1 = true) ∧
      (fc.insertAll rs).frameCache.totalCost = N * c := by
  -- split the insertions into the first `N` and the last one
  obtain ⟨init, last, rfl⟩ : ∃ init last, rs = init ++ [last] := by
    rcases List.eq_nil_or_concat rs with h | ⟨init, last, h⟩
    · rw [h] at hlen; simp at hlen
    · exact ⟨init, last, by simpa using h⟩
  have hinit : init.length = N := by simpa using hlen
  obtain ⟨r0, init1, rfl⟩ : ∃ r0 init1, init = r0 :: init1 := by
    cases init with
    | nil => simp at hinit; omega
    | cons r0 init1 => exact ⟨r0, init1, rfl⟩
  have hkeys1 : ((r0 :: init1).map Prod.fst).Nodup := by
    rw [List.map_append] at hkeys
    exact (List.nodup_append.mp hkeys).1
  have hlast : last.1 ∉ (r0 :: init1).map Prod.fst := by
    rw [List.map_append] at hkeys
    have := (List.nodup_append.mp hkeys).2.2
    intro hmem
    exact this hmem (by simp)
  have hNc : ((r0 :: init1).length : Int) * c = N * c := by rw [hinit]
  -- the first `N` insertions fill the cache without eviction
  have hfill := QCache.foldl_insert_fill c (r0 :: init1) fc.frameCache (le_of_lt hc)
    (fun r hr => hcost r (List.mem_append_left _ hr)) hkeys1
    (fun r _ => by simp [QCache.keys, hnodes]) (by rw [htotal, hNc, hmx]; linarith)
    (by rw [htotal])
  have hone : (1 : Int) ≤ N := by exact_mod_cast hN
  have hcN : c ≤ N * c := by nlinarith
  -- the last insertion evicts the oldest node only
  have hstep := QCache.insert_evict_one
    { fc.frameCache with
        nodes := fc.frameCache.nodes ++ (r0 :: init1).map (fun r => ⟨r.1, r.2, c⟩),
        total := fc.frameCache.total + (r0 :: init1).length * c }
    last.1 last.2 c ⟨r0.1, r0.2, c⟩ (init1.map (fun r => ⟨r.1, r.2, c⟩))
    (by
      simp only [QCache.keys, hnodes, List.nil_append, List.map_map]
      intro hmem
      apply hlast
      simpa [Function.comp] using hmem)
    (by simp [hnodes])
    (by show c ≤ fc.frameCache.mx; rw [hmx]; linarith)
    (by show fc.frameCache.mx - c < fc.frameCache.total + (r0 :: init1).length * c
        rw [htotal, hNc, hmx]; linarith)
    (by show fc.frameCache.total + (r0 :: init1).length * c - c ≤ fc.frameCache.mx - c
        rw [htotal, hNc, hmx]; linarith)
  have hfinal : (fc.insertAll ((r0 :: init1) ++ [last])).frameCache =
      { fc.frameCache with
          nodes := init1.map (fun r => ⟨r.1, r.2, c⟩) ++ [⟨last.1, last.2, c⟩],
          total := fc.frameCache.total + (r0 :: init1).length * c - c + c } := by
    rw [FrameCache.insertAll_frameCache, List.foldl_append, hfill]
    simp only [List.foldl_cons, List.foldl_nil]
    rw [hcost last (by simp), hstep]
  have hkeysEq : (fc.insertAll ((r0 :: init1) ++ [last])).frameCache.keys =
      (((r0 :: init1) ++ [last]).map Prod.fst).tail := by
    rw [hfinal]
    simp [QCache.keys, Function.comp]
  refine ⟨hkeysEq, ?_, ?_, ?_⟩
  · intro r hr
    simp only [List.cons_append, List.head?_cons, Option.mem_def, Option.some.injEq] at hr
    subst hr
    rw [QCache.contains_eq_false_iff, hkeysEq]
    simp only [List.cons_append, List.map_cons, List.tail_cons]
    simp only [List.cons_append, List.map_cons, List.nodup_cons] at hkeys
    exact hkeys.1
  · intro r hr
    rw [QCache.contains_eq_true_iff, hkeysEq]
    simp only [List.cons_append, List.map_cons, List.tail_cons] at hr ⊢
    exact List.mem_map_of_mem Prod.fst hr
  · rw [hfinal]
    show fc.frameCache.total + (r0 :: init1).length * c - c + c = N * c
    rw [htotal, hNc]; ring

theorem C2_lru_eviction_order_witness :
    (lruStart.insertAll lruFrames).frameCache.keys = [⟨"B", 0⟩, ⟨"C", 0⟩] ∧
      (lruStart.insertAll lruFrames).frameCache.contains ⟨"A", 0⟩ = false ∧
      (lruStart.insertAll lruFrames).frameCache.totalCost = 2 * 524288 ∧
      (lruStart.insertAll lruFrames).getCacheSize = 1 :=
  have h := C2_lru_eviction_order 2 524288 1048576 lruStart lruFrames (by decide) (by decide)
    (by decide) (by decide) (by decide) (by decide) (by decide) (by decide) (by decide)
    (by decide)
  ⟨h.1, h.2.1 (⟨"A", 0⟩, ⟨524288, 1⟩) rfl, h.2.2.2, by decide⟩

theorem eraseP_keys_filter (k : CacheKey) (ns : List CacheNode)
    (hnodup : (ns.map CacheNode.key).Nodup) (hk : k ∈ ns.map CacheNode.key) :
    (ns.eraseP (fun x => decide (x.key = k))).map CacheNode.key =
      (ns.map CacheNode.key).filter (fun j => decide (j ≠ k)) := by
  induction ns with
  | nil => simp at hk
  | cons u rest ih =>
      simp only [List.map_cons, List.nodup_cons] at hnodup
      by_cases hu : u.key = k
      · have hnot : ∀ j ∈ rest.map CacheNode.key, j ≠ k := by
          intro j hj hjk
          exact hnodup.1 (hu ▸ hjk ▸ hj)
        simp only [List.eraseP_cons, hu, decide_True, cond_true, List.map_cons, ne_eq,
          not_true_eq_false, decide_False, Bool.false_eq_true, not_false_eq_true,
          List.filter_cons_of_neg]
        symm
        rw [List.filter_eq_self]
        intro j hj
        simpa using hnot j hj
      · have hk2 : k ∈ rest.map CacheNode.key := by
          simp only [List.map_cons, List.mem_cons] at hk
          rcases hk with hk | hk
          · exact absurd hk.symm hu
          · exact hk
        simp [List.eraseP_cons, hu, ih hnodup.2 hk2]

theorem QCache.object_hit (q : QCache) (k : CacheKey) (h : q.contains k = true) :
    ∃ n, n ∈ q.nodes ∧ n.key = k ∧
      q.nodes.find? (fun x => decide (x.key = k)) = some n ∧
      q.object k = (some n.t,
        { q with nodes := q.nodes.eraseP (fun x => decide (x.key = k)) ++ [n] }) := by
  have hk := (q.contains_eq_true_iff k).mp h
  cases hf : q.nodes.find? (fun x => decide (x.key = k)) with
  | none =>
      exfalso
      rw [List.find?_eq_none] at hf
      obtain ⟨n, hn, hnk⟩ := List.mem_map.mp hk
      exact hf n hn (by simpa using hnk)
  | some n =>
      obtain ⟨h1, h2⟩ := find_mem k q.nodes n hf
      exact ⟨n, h1, h2, rfl, by simp [QCache.object, hf]⟩

/-- C3 (amended). A `getFrame` hit refreshes recency: in a cache holding `N ≥ 2`
entries of equal cost `c` at full capacity (`N * c ≤ budget < (N + 1) * c`), reading
a cached key `k` with `getFrame` and then inserting a frame of cost `c` under a new
key `k2` keeps `k` cached; exactly one entry is evicted, the least recently used of
the keys other than `k`, and the new recency order is the remaining other keys,
then `k`, then `k2`. -/
theorem C3_hit_refreshes_recency (N : Nat) (c : Int) (fc : FrameCache) (k k2 : CacheKey)
    (f2 : QImage) (hN : 2 ≤ N) (hc : 0 < c)
    (hlen : fc.frameCache.nodes.length = N)
    (hcosts : ∀ n ∈ fc.frameCache.nodes, n.c = c)
    (htotal : fc.frameCache.total = N * c)
    (hnodup : fc.frameCache.keys.Nodup)
    (hlow : N * c ≤ fc.frameCache.mx) (hhigh : fc.frameCache.mx < (N + 1) * c)
    (hk : fc.frameCache.contains k = true) (hk2 : fc.frameCache.contains k2 = false)
    (hf2 : insertCost f2 = c) :
    (((fc.getFrame k.filePath k.timestamp).2.insertFrame k2.filePath k2.timestamp
        f2).frameCache.contains k = true) ∧
      ∃ victim rest,
        fc.frameCache.keys.filter (fun j => decide (j ≠ k)) = victim :: rest ∧
        ((fc.getFrame k.filePath k.timestamp).2.insertFrame k2.filePath k2.timestamp
          f2).frameCache.keys = rest ++ [k, k2] ∧
        ((fc.getFrame k.filePath k.timestamp).2.insertFrame k2.filePath k2.timestamp
          f2).frameCache.contains victim = false := by
  obtain ⟨n, hn, hnk, hfind, hobj⟩ := fc.frameCache.object_hit k hk
  have hkmem := (fc.frameCache.contains_eq_true_iff k).mp hk
  have hk2mem := (fc.frameCache.contains_eq_false_iff k2).mp hk2
  have hkeysE := eraseP_keys_filter k fc.frameCache.nodes hnodup hkmem
  -- the state of the cache after the hit
  have hq1 : (fc.getFrame k.filePath k.timestamp).2.frameCache =
      { fc.frameCache with
          nodes := fc.frameCache.nodes.eraseP (fun x => decide (x.key = k)) ++ [n] } := by
    rw [(fc.getFrame_frameCache k.filePath k.timestamp).1]
    show (fc.frameCache.object k).2 = _
    rw [hobj]
  -- at least one other entry
  have hlenE : (fc.frameCache.nodes.eraseP (fun x => decide (x.key = k))).length = N - 1 := by
    rw [List.length_eraseP_of_mem hn (by simpa using hnk), hlen]
  obtain ⟨u, rest, hE⟩ : ∃ u rest,
      fc.frameCache.nodes.eraseP (fun x => decide (x.key = k)) = u :: rest := by
    cases hE : fc.frameCache.nodes.eraseP (fun x => decide (x.key = k)) with
    | nil => rw [hE] at hlenE; simp at hlenE; omega
    | cons u rest => exact ⟨u, rest, rfl⟩
  have hu : u ∈ fc.frameCache.nodes :=
    List.mem_of_mem_eraseP (by rw [hE]; exact List.mem_cons_self _ _)
  have huc : u.c = c := hcosts u hu
  have hfilter : fc.frameCache.keys.filter (fun j => decide (j ≠ k)) =
      u.key :: rest.map CacheNode.key := by
    unfold QCache.keys
    rw [← hkeysE, hE]; rfl
  have hfn : (fc.frameCache.keys.filter (fun j => decide (j ≠ k))).Nodup :=
    hnodup.filter _
  rw [hfilter] at hfn
  have hukey : u.key ≠ k := by
    have : u.key ∈ fc.frameCache.keys.filter (fun j => decide (j ≠ k)) := by
      rw [hfilter]; exact List.mem_cons_self _ _
    simpa using (List.mem_filter.mp this).2
  have hone : (2 : Int) ≤ N := by exact_mod_cast hN
  have hcN : c ≤ N * c := by nlinarith
  -- the insertion evicts `u` only
  have hstep := QCache.insert_evict_one
    { fc.frameCache with
        nodes := fc.frameCache.nodes.eraseP (fun x => decide (x.key = k)) ++ [n] }
    k2 f2 c u (rest ++ [n])
    (by
      simp only [QCache.keys, List.map_append, List.mem_append, not_or]
      refine ⟨?_, ?_⟩
      · intro hmem
        rw [hkeysE] at hmem
        exact hk2mem (List.mem_filter.mp hmem).1
      · simp only [List.map_cons, List.map_nil, List.mem_singleton]
        intro h2
        exact hk2mem (h2 ▸ hnk ▸ hkmem))
    (by simp [hE])
    (by show c ≤ fc.frameCache.mx; linarith)
    (by show fc.frameCache.mx - c < fc.frameCache.total; rw [htotal]; linarith)
    (by show fc.frameCache.total - u.c ≤ fc.frameCache.mx - c; rw [htotal, huc]; linarith)
  have hq2 : ((fc.getFrame k.filePath k.timestamp).2.insertFrame k2.filePath k2.timestamp
      f2).frameCache.keys = rest.map CacheNode.key ++ [k, k2] := by
    rw [FrameCache.insertFrame_frameCache, hq1, hf2]
    show (QCache.insert _ k2 f2 c).keys = _
    rw [hstep]
    simp [QCache.keys, hnk]
  refine ⟨?_, u.key, rest.map CacheNode.key, hfilter, hq2, ?_⟩
  · rw [QCache.contains_eq_true_iff, hq2]; simp
  · rw [QCache.contains_eq_false_iff, hq2]
    simp only [List.mem_append, List.mem_cons, List.mem_singleton, List.not_mem_nil, or_false,
      not_or]
    refine ⟨(List.nodup_cons.mp hfn).1, hukey, ?_⟩
    intro h2
    exact hk2mem (h2 ▸ List.mem_map_of_mem CacheNode.key hu)

theorem C3_hit_refreshes_recency_witness :
    (((lruFull.getFrame (CacheKey.mk "A" 0).filePath (CacheKey.mk "A" 0).timestamp).2.insertFrame
        (CacheKey.mk "C" 0).filePath (CacheKey.mk "C" 0).timestamp
        ⟨524288, 3⟩).frameCache.contains ⟨"A", 0⟩ = true) ∧
      ∃ victim rest,
        lruFull.frameCache.keys.filter (fun j => decide (j ≠ CacheKey.mk "A" 0)) =
          victim :: rest ∧
        ((lruFull.getFrame (CacheKey.mk "A" 0).filePath
          (CacheKey.mk "A" 0).timestamp).2.insertFrame
          (CacheKey.mk "C" 0).filePath (CacheKey.mk "C" 0).timestamp
          ⟨524288, 3⟩).frameCache.keys = rest ++ [⟨"A", 0⟩, ⟨"C", 0⟩] ∧
        ((lruFull.getFrame (CacheKey.mk "A" 0).filePath
          (CacheKey.mk "A" 0).timestamp).2.insertFrame
          (CacheKey.mk "C" 0).filePath (CacheKey.mk "C" 0).timestamp
          ⟨524288, 3⟩).frameCache.contains victim = false :=
  C3_hit_refreshes_recency 2 524288 lruFull ⟨"A", 0⟩ ⟨"C", 0⟩ ⟨524288, 3⟩ (by decide)
    (by decide) (by decide) (by decide) (by decide) (by decide) (by decide) (by decide)
    (by decide) (by decide) (by decide)

/-- C3, counterexample. With `N = 1` (a 1 MB budget holding one 1 MB frame under
key A) the claim fails: `getFrame` on A is a hit, and the following insertion of a
1 MB frame under the new key B evicts A, the key that was just read. -/
theorem C3_counterexample_single_entry :
    lruSingle.frameCache.keys = [⟨"A", 0⟩] ∧
      lruSingle.frameCache.totalCost = 1 * 1048576 ∧
      1 * 1048576 ≤ lruSingle.frameCache.mx ∧ lruSingle.frameCache.mx < (1 + 1) * 1048576 ∧
      (lruSingle.getFrame "A" 0).1 = ⟨1048576, 1⟩ ∧
      (lruSingle.getFrame "A" 0).2.getCacheHits = lruSingle.getCacheHits + 1 ∧
      ((lruSingle.getFrame "A" 0).2.insertFrame "B" 0 ⟨1048576, 2⟩).frameCache.contains
        ⟨"A", 0⟩ = false ∧
      ((lruSingle.getFrame "A" 0).2.insertFrame "B" 0 ⟨1048576, 2⟩).frameCache.keys =
        [⟨"B", 0⟩] := by
  decide

/-- C4. Miss accounting: for every state and every key that is not in the cache,
`getFrame` returns the null image, the miss count grows by exactly one, and the hit
count and the cache (entries, order, costs) are unchanged. -/
theorem C4_miss_accounting (fc : FrameCache) (filePath : String) (timestamp : Int)
    (hmiss : fc.frameCache.contains ⟨filePath, timestamp⟩ = false) :
    (fc.getFrame filePath timestamp).1 = QImage.null ∧
      (fc.getFrame filePath timestamp).1.isNull = true ∧
      (fc.getFrame filePath timestamp).2.getCacheMisses = fc.getCacheMisses + 1 ∧
      (fc.getFrame filePath timestamp).2.getCacheHits = fc.getCacheHits ∧
      (fc.getFrame filePath timestamp).2.frameCache = fc.frameCache := by
  rw [FrameCache.getFrame_miss fc filePath timestamp hmiss]
  exact ⟨rfl, rfl, rfl, rfl, rfl⟩

theorem C4_miss_accounting_witness :
    (FrameCache.new.getFrame "clip.mp4" 1000).1 = QImage.null ∧
      (FrameCache.new.getFrame "clip.mp4" 1000).1.isNull = true ∧
      (FrameCache.new.getFrame "clip.mp4" 1000).2.getCacheMisses =
        FrameCache.new.getCacheMisses + 1 ∧
      (FrameCache.new.getFrame "clip.mp4" 1000).2.getCacheHits = FrameCache.new.getCacheHits ∧
      (FrameCache.new.getFrame "clip.mp4" 1000).2.frameCache = FrameCache.new.frameCache :=
  C4_miss_accounting FrameCache.new "clip.mp4" 1000 (by decide)

theorem FrameCache.getFrame_hit (fc : FrameCache) (p : String) (t : Int) (n : CacheNode)
    (h : fc.frameCache.nodes.find? (fun x => decide (x.key = ⟨p, t⟩)) = some n) :
    fc.getFrame p t =
      (n.t,
        { fc with
            frameCache :=
              { fc.frameCache with
                  nodes := fc.frameCache.nodes.eraseP (fun x => decide (x.key = ⟨p, t⟩)) ++ [n] },
            cacheHits := fc.cacheHits + 1 }) := by
  simp only [FrameCache.getFrame, QCache.object, h]

theorem eraseP_key_not_mem (k : CacheKey) (ns : List CacheNode)
    (hnodup : (ns.map CacheNode.key).Nodup) :
    k ∉ (ns.eraseP (fun x => decide (x.key = k))).map CacheNode.key := by
  by_cases hk : k ∈ ns.map CacheNode.key
  · rw [eraseP_keys_filter k ns hnodup hk]
    simp
  · intro hmem
    obtain ⟨x, hx, hxk⟩ := List.mem_map.mp hmem
    exact hk (List.mem_map.mpr ⟨x, List.mem_of_mem_eraseP hx, hxk⟩)

theorem QCache.remove_not_mem (q : QCache) (k : CacheKey) (hnodup : q.keys.Nodup) :
    k ∉ (q.remove k).keys := by
  unfold QCache.remove
  split
  · rename_i hf
    rw [List.find?_eq_none] at hf
    intro hmem
    obtain ⟨x, hx, hxk⟩ := List.mem_map.mp hmem
    exact hf x hx (by simpa using hxk)
  · exact eraseP_key_not_mem k q.nodes hnodup

theorem QCache.insert_find (q : QCache) (k : CacheKey) (obj : QImage) (acost : Int)
    (hnodup : q.keys.Nodup) (hfit : acost ≤ q.mx) :
    (q.insert k obj acost).nodes.find? (fun x => decide (x.key = k)) = some ⟨k, obj, acost⟩ := by
  have hrm := q.remove_not_mem k hnodup
  have hmx := q.remove_mx k
  unfold QCache.insert
  simp only
  have h1 : ¬ acost > (q.remove k).mx := by rw [hmx]; exact not_lt.mpr hfit
  rw [if_neg h1]
  simp only [List.find?_append]
  have hnone : ((q.remove k).trim ((q.remove k).mx - acost)).nodes.find?
      (fun x => decide (x.key = k)) = none := by
    rw [List.find?_eq_none]
    intro x hx hxk
    have hx2 := (q.remove k).trim_mem _ x hx
    exact hrm (List.mem_map.mpr ⟨x, hx2, by simpa using hxk⟩)
  rw [hnone]
  simp

/-- C5 (amended). Hit after background load: for every state whose cache holds each
key once, every key and every frame whose cost (its byte size as `int`) does not
exceed the byte budget, `handleFrameLoaded` emits `frameAvailable` for the key and
an immediately following `getFrame` for the same key returns that frame, raises the
hit count by exactly one and leaves the miss count unchanged. -/
theorem C5_hit_after_load (fc : FrameCache) (filePath : String) (timestamp : Int)
    (frame : QImage) (hnodup : fc.frameCache.keys.Nodup)
    (hfit : insertCost frame ≤ fc.frameCache.mx) :
    (fc.handleFrameLoaded filePath timestamp frame).emitted =
        fc.emitted ++ [.frameAvailable filePath timestamp] ∧
      ((fc.handleFrameLoaded filePath timestamp frame).getFrame filePath timestamp).1 = frame ∧
      ((fc.handleFrameLoaded filePath timestamp frame).getFrame filePath
          timestamp).2.getCacheHits = fc.getCacheHits + 1 ∧
      ((fc.handleFrameLoaded filePath timestamp frame).getFrame filePath
          timestamp).2.getCacheMisses = fc.getCacheMisses := by
  have hfind := fc.frameCache.insert_find ⟨filePath, timestamp⟩ frame (insertCost frame)
    hnodup hfit
  rw [← FrameCache.handleFrameLoaded_frameCache] at hfind
  rw [FrameCache.getFrame_hit _ filePath timestamp _ hfind]
  refine ⟨?_, rfl, ?_, ?_⟩
  · simp only [FrameCache.handleFrameLoaded, FrameCache.insertFrame]
  · simp only [FrameCache.getCacheHits, FrameCache.handleFrameLoaded, FrameCache.insertFrame]
  · simp only [FrameCache.getCacheMisses, FrameCache.handleFrameLoaded, FrameCache.insertFrame]

theorem C5_hit_after_load_witness :
    (lruStart.handleFrameLoaded "clip.mp4" 1000 ⟨524288, 7⟩).emitted =
        lruStart.emitted ++ [.frameAvailable "clip.mp4" 1000] ∧
      ((lruStart.handleFrameLoaded "clip.mp4" 1000 ⟨524288, 7⟩).getFrame "clip.mp4" 1000).1 =
        ⟨524288, 7⟩ ∧
      ((lruStart.handleFrameLoaded "clip.mp4" 1000 ⟨524288, 7⟩).getFrame "clip.mp4"
          1000).2.getCacheHits = lruStart.getCacheHits + 1 ∧
      ((lruStart.handleFrameLoaded "clip.mp4" 1000 ⟨524288, 7⟩).getFrame "clip.mp4"
          1000).2.getCacheMisses = lruStart.getCacheMisses :=
  C5_hit_after_load lruStart "clip.mp4" 1000 ⟨524288, 7⟩ (by decide) (by decide)

/-- C5, counterexample. Under a 1 MB budget a decoded (non-null) 8,294,400-byte
frame is refused by the cache: after `handleFrameLoaded` has emitted
`frameAvailable`, `getFrame` for the same key returns the null image, the hit count
is unchanged and the miss count grows. -/
theorem C5_counterexample_oversized_frame :
    fullHdFrame.isNull = false ∧
      ((lruStart.setCacheAhead 0).setCacheBehind 0).getMaxCacheSize = 1 ∧
      (((lruStart.setCacheAhead 0).setCacheBehind 0).handleFrameLoaded "clip.mp4" 1000
          fullHdFrame).emitted = [.frameAvailable "clip.mp4" 1000] ∧
      ((((lruStart.setCacheAhead 0).setCacheBehind 0).handleFrameLoaded "clip.mp4" 1000
          fullHdFrame).getFrame "clip.mp4" 1000).1 = QImage.null ∧
      ((((lruStart.setCacheAhead 0).setCacheBehind 0).handleFrameLoaded "clip.mp4" 1000
          fullHdFrame).getFrame "clip.mp4" 1000).2.getCacheHits = 0 ∧
      ((((lruStart.setCacheAhead 0).setCacheBehind 0).handleFrameLoaded "clip.mp4" 1000
          fullHdFrame).getFrame "clip.mp4" 1000).2.getCacheMisses = 1 := by
  decide

theorem FrameLoader.requestFrame_queue (l : FrameLoader) (p : String) (t : Int) :
    (l.requestFrame p t).requestQueue = l.requestQueue ++ [⟨p, t⟩] := by
  unfold FrameLoader.requestFrame
  simp only
  split <;> rfl

theorem FrameLoader.requestFrame_running (l : FrameLoader) (p : String) (t : Int) :
    (l.requestFrame p t).running = l.running := by
  unfold FrameLoader.requestFrame
  simp only
  split <;> rfl

theorem foldl_request_queue (p : String) (g : Nat → Int) (c : CacheKey → Bool)
    (idx : List Nat) (l0 : FrameLoader) :
    (idx.foldl (fun l i => if c ⟨p, g i⟩ = true then l else l.requestFrame p (g i))
        l0).requestQueue =
      l0.requestQueue ++
        (idx.map (fun (i : Nat) => (⟨p, g i⟩ : LoadRequest))).filter
          (fun r => !c ⟨r.filePath, r.timestamp⟩) := by
  induction idx generalizing l0 with
  | nil => simp
  | cons i rest ih =>
      simp only [List.foldl_cons, List.map_cons]
      rw [ih]
      by_cases h : c ⟨p, g i⟩ = true
      · simp [h]
      · simp [h, FrameLoader.requestFrame_queue]

theorem FrameCache.missLoader_queue (fc : FrameCache) (p : String) (t : Int) :
    (fc.missLoader p t).requestQueue =
      fc.frameLoader.requestQueue ++ [⟨p, t⟩] ++
        ((List.range fc.cacheAhead.toNat).map
          (fun (i : Nat) => (⟨p, wrapInt64 (t + ((i : Int) + 1) * frameInterval)⟩ : LoadRequest))).filter
          (fun r => !fc.frameCache.contains ⟨r.filePath, r.timestamp⟩) ++
        ((List.range fc.cacheBehind.toNat).map
          (fun (i : Nat) => (⟨p, wrapInt64 (t - ((i : Int) + 1) * frameInterval)⟩ : LoadRequest))).filter
          (fun r => !fc.frameCache.contains ⟨r.filePath, r.timestamp⟩) := by
  unfold FrameCache.missLoader
  rw [foldl_request_queue p (fun i => wrapInt64 (t - ((i : Int) + 1) * frameInterval))
    fc.frameCache.contains]
  rw [foldl_request_queue p (fun i => wrapInt64 (t + ((i : Int) + 1) * frameInterval))
    fc.frameCache.contains]
  rw [FrameLoader.requestFrame_queue]

theorem wrapInt64_of_range (x : Int) (h0 : -9223372036854775808 ≤ x)
    (h1 : x < 9223372036854775808) : wrapInt64 x = x := by
  unfold wrapInt64
  split <;> omega

theorem frameInterval_eq : frameInterval = 33 := by decide

theorem FrameLoader.runLoop_running (decode : String → Int → QImage)
    (queue : List LoadRequest) :
    FrameLoader.runLoop decode true queue = (queue.map (FrameLoader.process decode), []) := by
  induction queue with
  | nil => rfl
  | cons r rest ih => simp [FrameLoader.runLoop, ih]

/-- C7, counterexample. Two `getFrame` misses for the same key before any decode
leave two queued requests for that key, and the worker then decodes it twice (two
`frameLoaded` events). The same holds for two direct `requestFrame` calls. -/
theorem C7_counterexample_duplicate_pending :
    pendingTwice.frameLoader.requestQueue = [⟨"clip.mp4", 0⟩, ⟨"clip.mp4", 0⟩] ∧
      ¬ pendingTwice.frameLoader.requestQueue.Nodup ∧
      (FrameLoader.run sampleDecode pendingTwice.frameLoader).1 =
        [.frameLoaded "clip.mp4" 0 ⟨524288, 1⟩, .frameLoaded "clip.mp4" 0 ⟨524288, 1⟩] ∧
      ((FrameLoader.new.requestFrame "clip.mp4" 0).requestFrame "clip.mp4" 0).requestQueue =
        [⟨"clip.mp4", 0⟩, ⟨"clip.mp4", 0⟩] := by
  decide

/-- C7 (amended). The load queue is not de-duplicated: every `requestFrame` call
appends its request, whatever is already queued. Requesting the same key twice
before a decode adds two requests for it, and a worker run (no stop) emits one event
per queued request, so the decoder is invoked two more times for that key. -/
theorem C7_requests_accumulate (l : FrameLoader) (filePath : String) (timestamp : Int)
    (decode : String → Int → QImage) (hrun : l.running = true) :
    ((l.requestFrame filePath timestamp).requestFrame filePath timestamp).requestQueue =
        l.requestQueue ++ [⟨filePath, timestamp⟩, ⟨filePath, timestamp⟩] ∧
      ((l.requestFrame filePath timestamp).requestFrame filePath
          timestamp).requestQueue.count ⟨filePath, timestamp⟩ =
        l.requestQueue.count ⟨filePath, timestamp⟩ + 2 ∧
      (FrameLoader.run decode
          ((l.requestFrame filePath timestamp).requestFrame filePath timestamp)).1 =
        (FrameLoader.run decode l).1 ++
          [FrameLoader.process decode ⟨filePath, timestamp⟩,
           FrameLoader.process decode ⟨filePath, timestamp⟩] := by
  have hq : ((l.requestFrame filePath timestamp).requestFrame filePath timestamp).requestQueue =
      l.requestQueue ++ [⟨filePath, timestamp⟩, ⟨filePath, timestamp⟩] := by
    rw [FrameLoader.requestFrame_queue, FrameLoader.requestFrame_queue]
    simp
  have hr : ((l.requestFrame filePath timestamp).requestFrame filePath timestamp).running =
      true := by
    rw [FrameLoader.requestFrame_running, FrameLoader.requestFrame_running]
    exact hrun
  refine ⟨hq, ?_, ?_⟩
  · rw [hq]; simp
  · simp only [FrameLoader.run, hr, hrun, FrameLoader.runLoop_running, hq]
    simp

theorem C7_requests_accumulate_witness :
    ((FrameLoader.new.requestFrame "clip.mp4" 0).requestFrame "clip.mp4" 0).requestQueue =
        FrameLoader.new.requestQueue ++ [⟨"clip.mp4", 0⟩, ⟨"clip.mp4", 0⟩] ∧
      ((FrameLoader.new.requestFrame "clip.mp4" 0).requestFrame "clip.mp4"
          0).requestQueue.count ⟨"clip.mp4", 0⟩ =
        FrameLoader.new.requestQueue.count ⟨"clip.mp4", 0⟩ + 2 ∧
      (FrameLoader.run sampleDecode
          ((FrameLoader.new.requestFrame "clip.mp4" 0).requestFrame "clip.mp4" 0)).1 =
        (FrameLoader.run sampleDecode FrameLoader.new).1 ++
          [FrameLoader.process sampleDecode ⟨"clip.mp4", 0⟩,
           FrameLoader.process sampleDecode ⟨"clip.mp4", 0⟩] :=
  C7_requests_accumulate FrameLoader.new "clip.mp4" 0 sampleDecode (by decide)

/-- C8, counterexample. After two `getFrame` misses for the same key, one worker
iteration and the handling of its `frameLoaded` event, the key is in the frame
cache and still pending in the load queue. -/
theorem C8_counterexample_cached_and_pending :
    FrameLoader.iteration sampleDecode pendingTwice.frameLoader =
        some (.frameLoaded "clip.mp4" 0 ⟨524288, 1⟩,
          { pendingTwice.frameLoader with requestQueue := [⟨"clip.mp4", 0⟩] }) ∧
      pendingAndCached.frameCache.contains ⟨"clip.mp4", 0⟩ = true ∧
      pendingAndCached.frameLoader.requestQueue = [⟨"clip.mp4", 0⟩] := by
  decide

/-- C8 (amended). Cache and queue are only kept apart at the moment of enqueueing:
every request that `getFrame` appends to the load queue, and the request that
`prefetchFrame` appends, is for a key that is not in the frame cache at that moment
(and not after the call either); the queue already there is left in place. Nothing
removes a pending request when its key is inserted later. -/
theorem C8_enqueue_only_uncached (fc : FrameCache) (S : String) (T : Int) :
    (∃ added, (fc.getFrame S T).2.frameLoader.requestQueue =
        fc.frameLoader.requestQueue ++ added ∧
      ∀ r ∈ added, fc.frameCache.contains ⟨r.filePath, r.timestamp⟩ = false ∧
        (fc.getFrame S T).2.frameCache.contains ⟨r.filePath, r.timestamp⟩ = false) ∧
    (∃ added, (fc.prefetchFrame S T).frameLoader.requestQueue =
        fc.frameLoader.requestQueue ++ added ∧
      ∀ r ∈ added, fc.frameCache.contains ⟨r.filePath, r.timestamp⟩ = false ∧
        (fc.prefetchFrame S T).frameCache.contains ⟨r.filePath, r.timestamp⟩ = false) := by
  constructor
  · by_cases hmiss : fc.frameCache.contains ⟨S, T⟩ = false
    · rw [FrameCache.getFrame_miss fc S T hmiss]
      simp only [FrameCache.missLoader_queue, List.append_assoc]
      refine ⟨_, rfl, ?_⟩
      intro r hr
      simp only [List.mem_append, List.mem_singleton, List.mem_filter, Bool.not_eq_true',
        List.mem_cons, List.not_mem_nil, or_false] at hr
      rcases hr with h | h | h
      · subst h; exact ⟨hmiss, hmiss⟩
      · exact ⟨h.2, h.2⟩
      · exact ⟨h.2, h.2⟩
    · have hhit : fc.frameCache.contains ⟨S, T⟩ = true := by simpa using hmiss
      obtain ⟨n, _, _, hfind, _⟩ := fc.frameCache.object_hit ⟨S, T⟩ hhit
      rw [FrameCache.getFrame_hit fc S T n hfind]
      exact ⟨[], by simp, by simp⟩
  · unfold FrameCache.prefetchFrame
    by_cases h : fc.frameCache.contains ⟨S, T⟩ = true
    · simp only [h, Bool.not_true, Bool.false_eq_true, if_false]
      exact ⟨[], by simp, by simp⟩
    · have h2 : fc.frameCache.contains ⟨S, T⟩ = false := by simpa using h
      simp only [h2, Bool.not_false, if_true, FrameLoader.requestFrame_queue]
      refine ⟨[⟨S, T⟩], rfl, ?_⟩
      intro r hr
      simp only [List.mem_singleton] at hr
      subst hr
      exact ⟨h2, h2⟩

/-- C9. FIFO, one event per request: when the worker runs (`running` set, no stop
and no enqueue meanwhile) on the queue `[r1, ..., rn]`, it empties the queue and
emits exactly one event per request, in queue order: `frameLoaded` with the decoded
frame when the decoder yields a non-null image, otherwise `frameLoadError` with the
text "Failed to load frame"; a failure does not stop the requests after it. -/
theorem C9_fifo_one_event_per_request (decode : String → Int → QImage) (l : FrameLoader)
    (hrun : l.running = true) :
    (FrameLoader.run decode l).1 =
        l.requestQueue.map (fun r =>
          if (decode r.filePath r.timestamp).isNull = true then
            LoaderEvent.frameLoadError r.filePath r.timestamp "Failed to load frame"
          else LoaderEvent.frameLoaded r.filePath r.timestamp (decode r.filePath r.timestamp)) ∧
      (FrameLoader.run decode l).1.length = l.requestQueue.length ∧
      (FrameLoader.run decode l).2.requestQueue = [] := by
  simp only [FrameLoader.run, hrun, FrameLoader.runLoop_running, List.length_map, and_true]
  apply List.map_congr_left
  intro r _
  unfold FrameLoader.process
  by_cases h : (decode r.filePath r.timestamp).isNull = true
  · simp [h]
  · simp [h]

theorem C9_fifo_one_event_per_request_witness :
    (FrameLoader.run flakyDecode ⟨[⟨"a", 0⟩, ⟨"a", 33⟩, ⟨"a", 66⟩], true, true⟩).1 =
      [.frameLoaded "a" 0 ⟨524288, 1⟩, .frameLoadError "a" 33 "Failed to load frame",
       .frameLoaded "a" 66 ⟨524288, 1⟩] :=
  (C9_fifo_one_event_per_request flakyDecode ⟨[⟨"a", 0⟩, ⟨"a", 33⟩, ⟨"a", 66⟩], true, true⟩
    rfl).1.trans (by decide)

/-- C10. Clear resets state: after `clearCache()` the cache holds no entry, every
key is a miss (`getFrame` returns the null image), `getCacheSize()`,
`getCacheHits()` and `getCacheMisses()` are 0, and the configured maximum size, its
byte budget, `cacheAhead` and `cacheBehind` are unchanged. -/
theorem C10_clear_resets_state (fc : FrameCache) :
    fc.clearCache.frameCache.nodes = [] ∧
      (∀ k, fc.clearCache.frameCache.contains k = false) ∧
      (∀ p t, (fc.clearCache.getFrame p t).1 = QImage.null) ∧
      fc.clearCache.getCacheSize = 0 ∧
      fc.clearCache.getCacheHits = 0 ∧
      fc.clearCache.getCacheMisses = 0 ∧
      fc.clearCache.getMaxCacheSize = fc.getMaxCacheSize ∧
      fc.clearCache.frameCache.mx = fc.frameCache.mx ∧
      fc.clearCache.getCacheAhead = fc.getCacheAhead ∧
      fc.clearCache.getCacheBehind = fc.getCacheBehind := by
  have hc : ∀ k, fc.clearCache.frameCache.contains k = false := by
    intro k; rfl
  refine ⟨rfl, hc, ?_, ?_, rfl, rfl, rfl, rfl, rfl, rfl⟩
  · intro p t
    rw [FrameCache.getFrame_miss _ p t (hc _)]
  · simp [FrameCache.getCacheSize, FrameCache.clearCache, FrameCache.resetStatistics,
      QCache.clear, QCache.totalCost]

/-! ## Budget changes -/

theorem wrapInt32_megabytes_range (m : Int) (h0 : -2048 ≤ m) (h1 : m ≤ 2047) :
    wrapInt32 (wrapInt32 (m * 1024) * 1024) = m * 1048576 := by
  unfold wrapInt32
  split <;> split <;> omega

theorem trimLoop_drop (m : Int) (ns : List CacheNode) (t : Int) :
    ∃ j, (QCache.trimLoop m ns t).1 = ns.drop j ∧
      ∀ i < j, m < t - costSum ns + costSum (ns.drop i) := by
  induction ns generalizing t with
  | nil => exact ⟨0, rfl, fun i hi => absurd hi (Nat.not_lt_zero i)⟩
  | cons u rest ih =>
      unfold QCache.trimLoop
      split
      · rename_i hgt
        obtain ⟨j, hj, hall⟩ := ih (t - u.c)
        refine ⟨j + 1, by simpa using hj, ?_⟩
        intro i hi
        cases i with
        | zero => simp only [List.drop_zero]; linarith
        | succ i =>
            have := hall i (by omega)
            simp only [List.drop_succ_cons, costSum_cons]
            linarith
      · exact ⟨0, rfl, fun i hi => absurd hi (Nat.not_lt_zero i)⟩

/-- C11, counterexample. On a 1 MB cache holding two half-megabyte frames (usage
1 MB), `setMaxCacheSize(2048)` makes `getMaxCacheSize()` return 2048, but the `int`
product wraps to a byte budget of -2^31 and every entry is evicted although the
usage fits 2048 MB. -/
theorem C11_counterexample_2048_megabytes :
    lruFull.frameCache.keys = [⟨"A", 0⟩, ⟨"B", 0⟩] ∧
      lruFull.frameCache.totalCost = 1048576 ∧
      lruFull.frameCache.totalCost ≤ 2048 * 1048576 ∧
      (lruFull.setMaxCacheSize 2048).getMaxCacheSize = 2048 ∧
      (lruFull.setMaxCacheSize 2048).frameCache.mx = -2147483648 ∧
      (lruFull.setMaxCacheSize 2048).frameCache.keys = [] := by
  decide

/-- C11 (amended). Shrinking the budget evicts immediately: for every state whose
running total is the sum of the costs held and every `m` with `0 ≤ m ≤ 2047`, after
`setMaxCacheSize(m)` `getMaxCacheSize()` returns `m`, the byte budget is
`m * 1,048,576` and the total cost is within it; the entries left are the chain
without its `j` least recently used nodes, where every longer end of the chain
(dropping fewer than `j` nodes) exceeds the budget, so eviction is oldest-first and
stops as soon as the rest fits; if the usage already fitted, nothing is evicted. -/
theorem C11_shrink_evicts_oldest_first (fc : FrameCache) (m : Int) (hm0 : 0 ≤ m)
    (hm1 : m ≤ 2047) (htotal : fc.frameCache.total = costSum fc.frameCache.nodes) :
    (fc.setMaxCacheSize m).getMaxCacheSize = m ∧
      (fc.setMaxCacheSize m).frameCache.mx = m * 1048576 ∧
      (fc.setMaxCacheSize m).frameCache.totalCost ≤ m * 1048576 ∧
      (fc.setMaxCacheSize m).frameCache.totalCost =
        costSum (fc.setMaxCacheSize m).frameCache.nodes ∧
      (∃ j, (fc.setMaxCacheSize m).frameCache.nodes = fc.frameCache.nodes.drop j ∧
        ∀ i < j, m * 1048576 < costSum (fc.frameCache.nodes.drop i)) ∧
      (fc.frameCache.totalCost ≤ m * 1048576 →
        (fc.setMaxCacheSize m).frameCache.nodes = fc.frameCache.nodes) := by
  have hw := wrapInt32_megabytes m hm0 hm1
  have hfc : (fc.setMaxCacheSize m).frameCache =
      fc.frameCache.setMaxCost (m * 1048576) := by
    simp only [FrameCache.setMaxCacheSize, hw]
  have hnn : (0 : Int) ≤ m * 1048576 := by omega
  refine ⟨by simp only [FrameCache.setMaxCacheSize, FrameCache.getMaxCacheSize], ?_, ?_, ?_,
    ?_, ?_⟩
  · rw [hfc]; rfl
  · rw [hfc]
    exact QCache.trim_le { fc.frameCache with mx := m * 1048576 } (m * 1048576) htotal hnn
  · rw [hfc]
    exact QCache.trim_total { fc.frameCache with mx := m * 1048576 } (m * 1048576) htotal
  · rw [hfc]
    obtain ⟨j, hj, hall⟩ := trimLoop_drop (m * 1048576) fc.frameCache.nodes fc.frameCache.total
    refine ⟨j, hj, ?_⟩
    intro i hi
    have := hall i hi
    rw [htotal] at this
    linarith
  · intro hfit
    rw [hfc]
    have hfit2 : fc.frameCache.total ≤ m * 1048576 := hfit
    show (QCache.trimLoop (m * 1048576) fc.frameCache.nodes fc.frameCache.total).1 = _
    rw [trimLoop_noop _ _ _ hfit2]

theorem C11_shrink_evicts_oldest_first_witness :
    (lruFull.setMaxCacheSize 0).getMaxCacheSize = 0 ∧
      (lruFull.setMaxCacheSize 0).frameCache.mx = 0 * 1048576 ∧
      (lruFull.setMaxCacheSize 0).frameCache.totalCost ≤ 0 * 1048576 ∧
      (lruFull.setMaxCacheSize 0).frameCache.totalCost =
        costSum (lruFull.setMaxCacheSize 0).frameCache.nodes ∧
      (∃ j, (lruFull.setMaxCacheSize 0).frameCache.nodes = lruFull.frameCache.nodes.drop j ∧
        ∀ i < j, 0 * 1048576 < costSum (lruFull.frameCache.nodes.drop i)) ∧
      (lruFull.frameCache.totalCost ≤ 0 * 1048576 →
        (lruFull.setMaxCacheSize 0).frameCache.nodes = lruFull.frameCache.nodes) :=
  C11_shrink_evicts_oldest_first lruFull 0 (by decide) (by decide) (by decide)

/-- C12, counterexample. `setMaxCacheSize(-1)` is neither rejected nor clamped:
afterwards `getMaxCacheSize()` is -1 and the byte budget is -1,048,576. -/
theorem C12_counterexample_negative_budget :
    (FrameCache.new.setMaxCacheSize (-1)).getMaxCacheSize = -1 ∧
      (FrameCache.new.setMaxCacheSize (-1)).frameCache.mx = -1048576 ∧
      FrameCache.new.getMaxCacheSize = 512 ∧ FrameCache.new.frameCache.mx = 536870912 := by
  decide

/-- C12 (amended). No validation of the configuration: for every negative megabyte
value `m` with `-2048 ≤ m`, after `setMaxCacheSize(m)` `getMaxCacheSize()` returns
`m` and the cache's byte budget is `m * 1,048,576`; both are negative. -/
theorem C12_negative_budget_is_stored (fc : FrameCache) (m : Int) (hneg : m < 0)
    (hlo : -2048 ≤ m) :
    (fc.setMaxCacheSize m).getMaxCacheSize = m ∧
      (fc.setMaxCacheSize m).frameCache.mx = m * 1048576 ∧
      (fc.setMaxCacheSize m).getMaxCacheSize < 0 ∧
      (fc.setMaxCacheSize m).frameCache.mx < 0 := by
  have hw := wrapInt32_megabytes_range m hlo (by omega)
  have hmx : (fc.setMaxCacheSize m).frameCache.mx = m * 1048576 := by
    simp only [FrameCache.setMaxCacheSize, hw, QCache.setMaxCost_mx]
  have hget : (fc.setMaxCacheSize m).getMaxCacheSize = m := by
    simp only [FrameCache.setMaxCacheSize, FrameCache.getMaxCacheSize]
  refine ⟨hget, hmx, ?_, ?_⟩
  · rw [hget]; exact hneg
  · rw [hmx]; omega

theorem C12_negative_budget_is_stored_witness :
    (lruFull.setMaxCacheSize (-5)).getMaxCacheSize = -5 ∧
      (lruFull.setMaxCacheSize (-5)).frameCache.mx = -5 * 1048576 ∧
      (lruFull.setMaxCacheSize (-5)).getMaxCacheSize < 0 ∧
      (lruFull.setMaxCacheSize (-5)).frameCache.mx < 0 :=
  C12_negative_budget_is_stored lruFull (-5) (by decide) (by decide)

/-! ## Insertion: oversized frames and replacement -/

theorem QCache.remove_nodes (q : QCache) (k : CacheKey) :
    (q.remove k).nodes = q.nodes.eraseP (fun x => decide (x.key = k)) := by
  unfold QCache.remove
  split
  · rename_i hf
    rw [List.find?_eq_none] at hf
    symm
    exact List.eraseP_of_forall_not hf
  · rfl

theorem QCache.remove_total (q : QCache) (k : CacheKey) (h : q.total = costSum q.nodes) :
    (q.remove k).total = costSum (q.remove k).nodes := by
  unfold QCache.remove
  split
  · exact h
  · rename_i n hn
    have := find_eraseP_costSum k q.nodes n hn
    simp only
    linarith

/-- C13 (amended). An oversized frame is not retained: for every state in which the
total cost is within the budget and no entry has a negative cost (each key held
once), and every frame whose byte size exceeds the byte budget and is below 2^31
(so that its `int` cost is its byte size), after `insertFrame` for key `k` the key
is absent from the cache, the total cost is within the budget and the budget is
unchanged. -/
theorem C13_oversized_frame_not_retained (fc : FrameCache) (filePath : String)
    (timestamp : Int) (frame : QImage) (hnodup : fc.frameCache.keys.Nodup)
    (hcosts : ∀ n ∈ fc.frameCache.nodes, 0 ≤ n.c)
    (hwithin : fc.frameCache.totalCost ≤ fc.frameCache.mx)
    (hsize : frame.sizeInBytes < 2147483648)
    (hover : fc.frameCache.mx < (frame.sizeInBytes : Int)) :
    (fc.insertFrame filePath timestamp frame).frameCache.contains ⟨filePath, timestamp⟩ =
        false ∧
      (fc.insertFrame filePath timestamp frame).frameCache.totalCost ≤
        (fc.insertFrame filePath timestamp frame).frameCache.mx ∧
      (fc.insertFrame filePath timestamp frame).frameCache.mx = fc.frameCache.mx := by
  have hcost := insertCost_of_lt frame hsize
  have hq : (fc.insertFrame filePath timestamp frame).frameCache =
      fc.frameCache.remove ⟨filePath, timestamp⟩ := by
    rw [FrameCache.insertFrame_frameCache]
    unfold QCache.insert
    simp only
    rw [if_pos]
    rw [QCache.remove_mx, hcost]
    exact hover
  have hle : (fc.frameCache.remove ⟨filePath, timestamp⟩).total ≤ fc.frameCache.total := by
    unfold QCache.remove
    split
    · exact le_refl _
    · rename_i n hn
      have h0 := hcosts n (find_mem _ _ n hn).1
      simp only
      omega
  rw [hq]
  refine ⟨?_, ?_, QCache.remove_mx _ _⟩
  · rw [QCache.contains_eq_false_iff]
    exact fc.frameCache.remove_not_mem _ hnodup
  · rw [QCache.remove_mx]
    exact le_trans hle hwithin

theorem C13_oversized_frame_not_retained_witness :
    (lruFull.insertFrame "A" 0 fullHdFrame).frameCache.contains ⟨"A", 0⟩ = false ∧
      (lruFull.insertFrame "A" 0 fullHdFrame).frameCache.totalCost ≤
        (lruFull.insertFrame "A" 0 fullHdFrame).frameCache.mx ∧
      (lruFull.insertFrame "A" 0 fullHdFrame).frameCache.mx = lruFull.frameCache.mx :=
  C13_oversized_frame_not_retained lruFull "A" 0 fullHdFrame (by decide)
    (by
      intro n hn
      have h2 : n ∈ [(⟨⟨"A", 0⟩, ⟨524288, 1⟩, 524288⟩ : CacheNode),
          ⟨⟨"B", 0⟩, ⟨524288, 2⟩, 524288⟩] := by
        have h3 : lruFull.frameCache.nodes = [(⟨⟨"A", 0⟩, ⟨524288, 1⟩, 524288⟩ : CacheNode),
          ⟨⟨"B", 0⟩, ⟨524288, 2⟩, 524288⟩] := by decide
        rw [← h3]; exact hn
      simp only [List.mem_cons, List.mem_singleton, List.not_mem_nil, or_false] at h2
      rcases h2 with h | h <;> rw [h] <;> decide)
    (by decide) (by decide) (by decide)

/-- C13, counterexample. A frame of 2^31 bytes exceeds the default budget of
536,870,912 bytes, yet its `int` cost is -2^31, which the cache accepts: after
`insertFrame` the key is in the cache. -/
theorem C13_counterexample_frame_of_two_gigabytes :
    FrameCache.new.frameCache.mx = 536870912 ∧
      FrameCache.new.frameCache.mx < (hugeFrame.sizeInBytes : Int) ∧
      (FrameCache.new.insertFrame "A" 0 hugeFrame).frameCache.contains ⟨"A", 0⟩ = true ∧
      (FrameCache.new.insertFrame "A" 0 hugeFrame).frameCache.nodes =
        [⟨⟨"A", 0⟩, hugeFrame, -2147483648⟩] := by
  decide

/-- C14. Insert replaces: for every state whose cache holds each key once and whose
running total is the sum of the costs held, every key (already in the cache or not)
and every new frame (byte size below 2^31) whose cost fits the budget, `insertFrame`
leaves exactly one entry for that key: it is the most recently used node, holds the
new frame with cost equal to the frame's byte size, the other nodes are old nodes of
other keys in their old order, the total cost is the sum over the nodes now held
(the old frame's cost is not part of it), and `getFrame` returns the new frame. -/
theorem C14_insert_replaces (fc : FrameCache) (filePath : String) (timestamp : Int)
    (frame : QImage) (hnodup : fc.frameCache.keys.Nodup)
    (htotal : fc.frameCache.total = costSum fc.frameCache.nodes)
    (hsize : frame.sizeInBytes < 2147483648)
    (hfit : (frame.sizeInBytes : Int) ≤ fc.frameCache.mx) :
    (∃ kept, (fc.insertFrame filePath timestamp frame).frameCache.nodes =
        kept ++ [⟨⟨filePath, timestamp⟩, frame, (frame.sizeInBytes : Int)⟩] ∧
      kept <:+ fc.frameCache.nodes.eraseP (fun x => decide (x.key = ⟨filePath, timestamp⟩)) ∧
      (⟨filePath, timestamp⟩ : CacheKey) ∉ kept.map CacheNode.key ∧
      (fc.insertFrame filePath timestamp frame).frameCache.totalCost =
        costSum kept + (frame.sizeInBytes : Int)) ∧
      (fc.insertFrame filePath timestamp frame).frameCache.keys.count ⟨filePath, timestamp⟩ = 1 ∧
      ((fc.insertFrame filePath timestamp frame).getFrame filePath timestamp).1 = frame := by
  have hcost := insertCost_of_lt frame hsize
  have hrmx := fc.frameCache.remove_mx ⟨filePath, timestamp⟩
  have hrnot := fc.frameCache.remove_not_mem ⟨filePath, timestamp⟩ hnodup
  have hrtot := fc.frameCache.remove_total ⟨filePath, timestamp⟩ htotal
  have hq : (fc.insertFrame filePath timestamp frame).frameCache =
      { (fc.frameCache.remove ⟨filePath, timestamp⟩).trim
          ((fc.frameCache.remove ⟨filePath, timestamp⟩).mx - (frame.sizeInBytes : Int)) with
        nodes := ((fc.frameCache.remove ⟨filePath, timestamp⟩).trim
          ((fc.frameCache.remove ⟨filePath, timestamp⟩).mx - (frame.sizeInBytes : Int))).nodes ++
            [⟨⟨filePath, timestamp⟩, frame, (frame.sizeInBytes : Int)⟩],
        total := ((fc.frameCache.remove ⟨filePath, timestamp⟩).trim
          ((fc.frameCache.remove ⟨filePath, timestamp⟩).mx - (frame.sizeInBytes : Int))).total +
            (frame.sizeInBytes : Int) } := by
    rw [FrameCache.insertFrame_frameCache, hcost]
    unfold QCache.insert
    simp only
    rw [if_neg]
    rw [hrmx]
    exact not_lt.mpr hfit
  have hsuf : ((fc.frameCache.remove ⟨filePath, timestamp⟩).trim
      ((fc.frameCache.remove ⟨filePath, timestamp⟩).mx - (frame.sizeInBytes : Int))).nodes <:+
      fc.frameCache.nodes.eraseP (fun x => decide (x.key = ⟨filePath, timestamp⟩)) := by
    rw [← QCache.remove_nodes]
    exact trimLoop_suffix _ _ _
  have hnotkept : (⟨filePath, timestamp⟩ : CacheKey) ∉
      (((fc.frameCache.remove ⟨filePath, timestamp⟩).trim
        ((fc.frameCache.remove ⟨filePath, timestamp⟩).mx -
          (frame.sizeInBytes : Int))).nodes).map CacheNode.key := by
    intro hmem
    obtain ⟨x, hx, hxk⟩ := List.mem_map.mp hmem
    exact hrnot (List.mem_map.mpr ⟨x, QCache.trim_mem _ _ x hx, hxk⟩)
  refine ⟨⟨_, by rw [hq], hsuf, hnotkept, ?_⟩, ?_, ?_⟩
  · rw [hq]
    show ((fc.frameCache.remove ⟨filePath, timestamp⟩).trim _).total + _ = _
    rw [QCache.trim_total _ _ hrtot]
  · rw [hq]
    simp only [QCache.keys, List.map_append, List.map_cons, List.map_nil, List.count_append,
      List.count_singleton_self]
    rw [List.count_eq_zero_of_not_mem hnotkept]
  · have hfind := fc.frameCache.insert_find ⟨filePath, timestamp⟩ frame (insertCost frame)
      hnodup (by rw [hcost]; exact hfit)
    rw [← FrameCache.insertFrame_frameCache] at hfind
    rw [FrameCache.getFrame_hit _ filePath timestamp _ hfind]

theorem C14_insert_replaces_witness :
    (∃ kept, (lruFull.insertFrame "A" 0 ⟨1000, 9⟩).frameCache.nodes =
        kept ++ [⟨⟨"A", 0⟩, ⟨1000, 9⟩, ((1000 : Nat) : Int)⟩] ∧
      kept <:+ lruFull.frameCache.nodes.eraseP (fun x => decide (x.key = ⟨"A", 0⟩)) ∧
      (⟨"A", 0⟩ : CacheKey) ∉ kept.map CacheNode.key ∧
      (lruFull.insertFrame "A" 0 ⟨1000, 9⟩).frameCache.totalCost =
        costSum kept + ((1000 : Nat) : Int)) ∧
      (lruFull.insertFrame "A" 0 ⟨1000, 9⟩).frameCache.keys.count ⟨"A", 0⟩ = 1 ∧
      ((lruFull.insertFrame "A" 0 ⟨1000, 9⟩).getFrame "A" 0).1 = ⟨1000, 9⟩ :=
  C14_insert_replaces lruFull "A" 0 ⟨1000, 9⟩ (by decide) (by decide) (by decide) (by decide)

/-! ## Range prefetch -/

theorem prefetchTimes_eq (time : Int) (n : Nat) :
    prefetchTimes time n = (List.range n).map (fun (k : Nat) => time + 33 * (k : Int)) := by
  induction n generalizing time with
  | zero => rfl
  | succ n ih =>
      rw [prefetchTimes, ih, List.range_succ_eq_map, List.map_cons, List.map_map]
      simp only [Nat.cast_zero, mul_zero, add_zero, List.cons.injEq, true_and]
      apply List.map_congr_left
      intro k _
      simp only [Function.comp, Nat.cast_succ]
      ring

theorem foldl_request_queue_times (p : String) (c : CacheKey → Bool) (ts : List Int)
    (l0 : FrameLoader) :
    (ts.foldl (fun l t => if c ⟨p, t⟩ = true then l else l.requestFrame p t) l0).requestQueue =
      l0.requestQueue ++
        (ts.map (fun t => (⟨p, t⟩ : LoadRequest))).filter
          (fun r => !c ⟨r.filePath, r.timestamp⟩) := by
  induction ts generalizing l0 with
  | nil => simp
  | cons t rest ih =>
      simp only [List.foldl_cons, List.map_cons]
      rw [ih]
      by_cases h : c ⟨p, t⟩ = true
      · simp [h]
      · simp [h, FrameLoader.requestFrame_queue]

theorem FrameCache.prefetchFrame_eq (fc : FrameCache) (p : String) (t : Int) :
    fc.prefetchFrame p t =
      { fc with frameLoader :=
          (if fc.frameCache.contains ⟨p, t⟩ = true then fc.frameLoader
           else fc.frameLoader.requestFrame p t) } := by
  unfold FrameCache.prefetchFrame
  by_cases h : fc.frameCache.contains ⟨p, t⟩ = true
  · simp [h]
  · simp [h]

theorem FrameCache.prefetchFramesLoop_spec (p : String) (endTime : Int) (n : Nat) :
    ∀ (fuel : Nat) (time : Int) (fc : FrameCache), n < fuel →
      (∀ k : Nat, k < n → time + 33 * (k : Int) ≤ endTime) →
      endTime < time + 33 * (n : Int) →
      -9223372036854775808 ≤ time → endTime ≤ 9223372036854775774 →
      FrameCache.prefetchFramesLoop p endTime fuel time fc =
        some { fc with frameLoader :=
          ((prefetchTimes time n).foldl
            (fun l t => if fc.frameCache.contains ⟨p, t⟩ = true then l else l.requestFrame p t)
            fc.frameLoader) } := by
  induction n with
  | zero =>
      intro fuel time fc hfuel _ hend _ _
      obtain ⟨f, rfl⟩ : ∃ f, fuel = f + 1 := ⟨fuel - 1, by omega⟩
      have hnot : ¬ time ≤ endTime := by
        simp only [Nat.cast_zero, mul_zero, add_zero] at hend
        omega
      simp only [FrameCache.prefetchFramesLoop, hnot, if_false, prefetchTimes, List.foldl_nil]
  | succ n ih =>
      intro fuel time fc hfuel hall hend hlo hhi
      obtain ⟨f, rfl⟩ : ∃ f, fuel = f + 1 := ⟨fuel - 1, by omega⟩
      have h0 : time ≤ endTime := by simpa using hall 0 (Nat.succ_pos n)
      have hw : wrapInt64 (time + frameInterval) = time + 33 := by
        rw [frameInterval_eq]
        exact wrapInt64_of_range _ (by omega) (by omega)
      simp only [FrameCache.prefetchFramesLoop, h0, if_true, hw]
      rw [ih f (time + 33) (fc.prefetchFrame p time) (by omega)
        (by
          intro k hk
          have := hall (k + 1) (by omega)
          push_cast at this
          linarith)
        (by push_cast at hend; linarith) (by omega) hhi]
      rw [FrameCache.prefetchFrame_eq]
      simp only [prefetchTimes, List.foldl_cons]

/-- C15 (amended). Range prefetch: for every source `S` and every `start`, `end` in the
`qint64` range with `end ≤ 2^63 - 1 - 33` (so that the running timestamp does not
overflow), `prefetchFrames(S, start, end)` returns (any bound above the number of
passes suffices) and changes the load queue only: for `start ≤ end` it appends, in
ascending order, exactly the requests `(S, start + 33 * k)` with
`0 ≤ k ≤ (end - start) / 33` whose key is not in the cache; for `start > end` it
appends nothing. -/
theorem C15_range_prefetch (fc : FrameCache) (S : String) (startTime endTime : Int)
    (fuel : Nat) (hlo : -9223372036854775808 ≤ startTime)
    (hhi : endTime ≤ 9223372036854775774)
    (hfuel : ((endTime - startTime) / 33 + 1).toNat < fuel) :
    ∃ fc2, fc.prefetchFrames fuel S startTime endTime = some fc2 ∧
      fc2 = { fc with frameLoader := fc2.frameLoader } ∧
      (startTime ≤ endTime →
        fc2.frameLoader.requestQueue = fc.frameLoader.requestQueue ++
          ((List.range ((endTime - startTime) / 33 + 1).toNat).map
            (fun (k : Nat) => (⟨S, startTime + 33 * (k : Int)⟩ : LoadRequest))).filter
            (fun r => !fc.frameCache.contains ⟨r.filePath, r.timestamp⟩)) ∧
      (endTime < startTime → fc2.frameLoader.requestQueue = fc.frameLoader.requestQueue) := by
  have hspec := FrameCache.prefetchFramesLoop_spec S endTime
    ((endTime - startTime) / 33 + 1).toNat fuel startTime fc hfuel
    (by intro k hk; omega) (by omega) hlo hhi
  refine ⟨_, hspec, rfl, ?_, ?_⟩
  · intro _
    simp only [foldl_request_queue_times, prefetchTimes_eq, List.map_map]
    rfl
  · intro hgt
    have hz : ((endTime - startTime) / 33 + 1).toNat = 0 := by omega
    simp only [hz, prefetchTimes, List.foldl_nil]

theorem C15_range_prefetch_witness :
    ∃ fc2, noWindow.prefetchFrames 10 "clip.mp4" 0 100 = some fc2 ∧
      fc2.frameLoader.requestQueue =
        [⟨"clip.mp4", 0⟩, ⟨"clip.mp4", 33⟩, ⟨"clip.mp4", 66⟩, ⟨"clip.mp4", 99⟩] := by
  obtain ⟨fc2, h1, _, h3, _⟩ :=
    C15_range_prefetch noWindow "clip.mp4" 0 100 10 (by decide) (by decide) (by decide)
  exact ⟨fc2, h1, (h3 (by decide)).trans (by decide)⟩

theorem wrapInt64_le (x : Int) : wrapInt64 x ≤ 9223372036854775807 := by
  unfold wrapInt64
  split <;> omega

theorem FrameCache.prefetchFramesLoop_no_exit (filePath : String) (fuel : Nat) (time : Int)
    (fc : FrameCache) (h : time ≤ 9223372036854775807) :
    FrameCache.prefetchFramesLoop filePath 9223372036854775807 fuel time fc = none := by
  induction fuel generalizing time fc with
  | zero => rfl
  | succ n ih =>
      unfold FrameCache.prefetchFramesLoop
      rw [if_pos h]
      exact ih _ _ (wrapInt64_le _)

/-- C15, counterexample. With `end = 2^63 - 1`, the largest `qint64`, and
`start = end - 7`, the running timestamp is computed past the end of `qint64` after
the first pass and is below `end` again: the loop condition holds in every pass,
so `prefetchFrames` does not return, whatever bound is put on the number of
passes. The claim lets it schedule the single timestamp `start`. -/
theorem C15_counterexample_end_at_qint64_max :
    wrapInt64 (9223372036854775800 + frameInterval) = -9223372036854775783 ∧
      ((9223372036854775807 - 9223372036854775800) / 33 : Int) = 0 ∧
      (∀ fuel : Nat,
        noWindow.prefetchFrames fuel "clip.mp4" 9223372036854775800 9223372036854775807 =
          none) := by
  refine ⟨by decide, by decide, ?_⟩
  intro fuel
  unfold FrameCache.prefetchFrames
  exact FrameCache.prefetchFramesLoop_no_exit _ _ _ _ (by decide)

/-! ## Stop, lookups on a hit, load errors, defaults -/

theorem FrameLoader.runLoop_stopped (decode : String → Int → QImage)
    (queue : List LoadRequest) : FrameLoader.runLoop decode false queue = ([], queue) := by
  cases queue with
  | nil => rfl
  | cons r rest => simp [FrameLoader.runLoop]

theorem FrameLoader.foldl_requestFrame_running (reqs : List LoadRequest) (l : FrameLoader) :
    (reqs.foldl (fun s r => s.requestFrame r.filePath r.timestamp) l).running = l.running := by
  induction reqs generalizing l with
  | nil => rfl
  | cons r rest ih =>
      simp only [List.foldl_cons]
      rw [ih, FrameLoader.requestFrame_running]

theorem LoaderThread.exec_append (decode : String → Int → QImage) (a b : List ThreadAction)
    (s : LoaderThread) :
    LoaderThread.exec decode (a ++ b) s =
      ((LoaderThread.exec decode a s).1 ++
          (LoaderThread.exec decode b (LoaderThread.exec decode a s).2).1,
        (LoaderThread.exec decode b (LoaderThread.exec decode a s).2).2) := by
  induction a generalizing s with
  | nil => simp [LoaderThread.exec]
  | cons x xs ih =>
      rw [List.cons_append]
      simp only [LoaderThread.exec]
      rw [ih]
      simp only [List.append_assoc]

theorem LoaderThread.act_running (decode : String → Int → QImage) (s : LoaderThread)
    (a : ThreadAction) (h : s.loader.running = false) :
    (s.act decode a).2.loader.running = false := by
  obtain ⟨⟨q, run, ir⟩, ph⟩ := s
  simp only at h
  subst h
  cases a with
  | workerStep =>
      cases ir <;> cases ph <;> cases q <;> simp [LoaderThread.act, LoaderThread.step]
  | requestFrame p t =>
      simp [LoaderThread.act, LoaderThread.requestFrame, FrameLoader.requestFrame_running]
  | stop => rfl

theorem LoaderThread.exec_running (decode : String → Int → QImage) (acts : List ThreadAction)
    (s : LoaderThread) (h : s.loader.running = false) :
    (LoaderThread.exec decode acts s).2.loader.running = false := by
  induction acts generalizing s with
  | nil => exact h
  | cons a rest ih =>
      simp only [LoaderThread.exec]
      exact ih _ (LoaderThread.act_running decode s a h)

/-- On a stopped loader, an action taken while the worker is not inside a pass
calls no decoder and leaves the worker outside a pass. -/
theorem LoaderThread.act_between_passes (decode : String → Int → QImage) (s : LoaderThread)
    (a : ThreadAction) (h : s.loader.running = false)
    (hq : s.loader.isRunning = false ∨ s.phase = .loopTest ∨ s.phase = .returned) :
    (s.act decode a).1 = none ∧
      ((s.act decode a).2.loader.isRunning = false ∨ (s.act decode a).2.phase = .loopTest ∨
        (s.act decode a).2.phase = .returned) := by
  obtain ⟨⟨q, run, ir⟩, ph⟩ := s
  simp only at h hq
  subst h
  cases a with
  | workerStep =>
      cases ir <;> cases ph <;> simp [LoaderThread.act, LoaderThread.step] at hq ⊢
  | requestFrame p t =>
      cases ir <;> cases ph <;>
        simp [LoaderThread.act, LoaderThread.requestFrame, FrameLoader.requestFrame] at hq ⊢
  | stop =>
      cases ir <;> cases ph <;>
        simp [LoaderThread.act, LoaderThread.stop, FrameLoader.stop] at hq ⊢

theorem LoaderThread.exec_between_passes (decode : String → Int → QImage)
    (acts : List ThreadAction) (s : LoaderThread) (h : s.loader.running = false)
    (hq : s.loader.isRunning = false ∨ s.phase = .loopTest ∨ s.phase = .returned) :
    (LoaderThread.exec decode acts s).1 = [] := by
  induction acts generalizing s with
  | nil => rfl
  | cons a rest ih =>
      obtain ⟨h1, h2⟩ := LoaderThread.act_between_passes decode s a h hq
      simp only [LoaderThread.exec, h1, Option.toList, List.nil_append]
      exact ih _ (LoaderThread.act_running decode s a h) h2

theorem LoaderThread.exec_stopped_length (decode : String → Int → QImage)
    (acts : List ThreadAction) (s : LoaderThread) (h : s.loader.running = false) :
    (LoaderThread.exec decode acts s).1.length ≤ 1 := by
  induction acts generalizing s with
  | nil => simp [LoaderThread.exec]
  | cons a rest ih =>
      by_cases hq : s.loader.isRunning = false ∨ s.phase = .loopTest ∨ s.phase = .returned
      · rw [LoaderThread.exec_between_passes decode _ s h hq]
        simp
      · have hrun2 := LoaderThread.act_running decode s a h
        simp only [LoaderThread.exec, List.length_append]
        cases hfst : (s.act decode a).1 with
        | none =>
            have := ih _ hrun2
            simpa [Option.toList] using this
        | some e =>
            have hb : (s.act decode a).2.loader.isRunning = false ∨
                (s.act decode a).2.phase = .loopTest ∨ (s.act decode a).2.phase = .returned := by
              obtain ⟨⟨q, run, ir⟩, ph⟩ := s
              cases a with
              | workerStep =>
                  cases ir <;> cases run <;> cases ph <;> cases q <;>
                    simp [LoaderThread.act, LoaderThread.step] at hfst ⊢
              | requestFrame p t => simp [LoaderThread.act] at hfst
              | stop => simp [LoaderThread.act] at hfst
            rw [LoaderThread.exec_between_passes decode _ _ hrun2 hb]
            simp [Option.toList]

theorem LoaderThread.steps_add (decode : String → Int → QImage) (m n : Nat)
    (s : LoaderThread) :
    LoaderThread.steps decode (m + n) s =
      ((LoaderThread.steps decode m s).1 ++
          (LoaderThread.steps decode n (LoaderThread.steps decode m s).2).1,
        (LoaderThread.steps decode n (LoaderThread.steps decode m s).2).2) := by
  unfold LoaderThread.steps
  rw [List.replicate_add, LoaderThread.exec_append]

theorem LoaderThread.steps_finished (decode : String → Int → QImage) (n : Nat)
    (s : LoaderThread) (h : s.loader.isRunning = false) :
    LoaderThread.steps decode n s = ([], s) := by
  induction n with
  | zero => rfl
  | succ k ih =>
      unfold LoaderThread.steps at ih ⊢
      rw [List.replicate_succ]
      simp only [LoaderThread.exec, LoaderThread.act, LoaderThread.step, h,
        Bool.false_eq_true, if_false, Option.toList, List.nil_append, ih]

/-- Three steps of the worker with no call in between are one pass of the loop, as
`FrameLoader.iteration` describes it. -/
theorem LoaderThread.steps_pass (decode : String → Int → QImage) (l : FrameLoader)
    (r : LoadRequest) (rest : List LoadRequest) (hrun : l.running = true)
    (his : l.isRunning = true) (hq : l.requestQueue = r :: rest) :
    LoaderThread.steps decode 3 ⟨l, .loopTest⟩ =
        ([(r, FrameLoader.process decode r)], ⟨{ l with requestQueue := rest }, .loopTest⟩) ∧
      FrameLoader.iteration decode l =
        some (FrameLoader.process decode r, { l with requestQueue := rest }) := by
  obtain ⟨q, run, ir⟩ := l
  simp only at hrun his hq
  subst hrun his hq
  constructor
  · simp [LoaderThread.steps, List.replicate, LoaderThread.exec, LoaderThread.act,
      LoaderThread.step, Option.toList]
  · simp [FrameLoader.iteration]

/-- The steps of the worker with no call in between, from the start of the thread
to its end, are the run that `FrameLoader.run` describes. -/
theorem LoaderThread.steps_run (decode : String → Int → QImage) (l : FrameLoader)
    (hrun : l.running = true) (his : l.isRunning = true) :
    LoaderThread.steps decode (3 * l.requestQueue.length + 3) ⟨l, .loopTest⟩ =
        (l.requestQueue.map (fun r => (r, FrameLoader.process decode r)),
          ⟨(FrameLoader.run decode l).2, .loopTest⟩) ∧
      (FrameLoader.run decode l).1 = l.requestQueue.map (FrameLoader.process decode) := by
  obtain ⟨q, run, ir⟩ := l
  simp only at hrun his
  subst hrun his
  refine ⟨?_, by simp only [FrameLoader.run, FrameLoader.runLoop_running]⟩
  simp only [FrameLoader.run, FrameLoader.runLoop_running]
  induction q with
  | nil =>
      simp [LoaderThread.steps, List.replicate, LoaderThread.exec, LoaderThread.act,
        LoaderThread.step, Option.toList]
  | cons r rest ih =>
      have hn : 3 * (r :: rest).length + 3 = 3 + (3 * rest.length + 3) := by
        simp only [List.length_cons]; omega
      rw [hn, LoaderThread.steps_add,
        (LoaderThread.steps_pass decode ⟨r :: rest, true, true⟩ r rest rfl rfl rfl).1]
      simp only [ih, List.map_cons, List.singleton_append]

/-- A run of the worker begun on a stopped loader ends after the loop condition. -/
theorem LoaderThread.steps_run_stopped (decode : String → Int → QImage) (l : FrameLoader)
    (hrun : l.running = false) (his : l.isRunning = true) :
    LoaderThread.steps decode 2 ⟨l, .loopTest⟩ =
        ([], ⟨(FrameLoader.run decode l).2, .loopTest⟩) ∧
      (FrameLoader.run decode l).1 = [] := by
  obtain ⟨q, run, ir⟩ := l
  simp only at hrun his
  subst hrun his
  constructor
  · simp [LoaderThread.steps, List.replicate, LoaderThread.exec, LoaderThread.act,
      LoaderThread.step, Option.toList, FrameLoader.run, FrameLoader.runLoop_stopped]
  · simp only [FrameLoader.run, FrameLoader.runLoop_stopped]

/-- C16, counterexample. The worker has dequeued the request for `("a", 0)` and
left the locked block when `stop()` is called; `stop()` does not wait, and the next
step of the worker decodes that request and emits `frameLoaded` for it. -/
theorem C16_counterexample_decode_after_stop :
    LoaderThread.exec sampleDecode
        [.requestFrame "a" 0, .workerStep, .workerStep, .stop] LoaderThread.new =
        ([], ⟨⟨[], false, true⟩, .dequeued ⟨"a", 0⟩⟩) ∧
      LoaderThread.exec sampleDecode
        [.requestFrame "a" 0, .workerStep, .workerStep, .stop, .workerStep] LoaderThread.new =
        ([(⟨"a", 0⟩, .frameLoaded "a" 0 ⟨524288, 1⟩)], ⟨⟨[], false, true⟩, .loopTest⟩) := by
  decide

/-- C16 (amended). Stop is final once the pass under way has ended: `stop()` leaves
the pending queue empty and `running` false, and `running` stays false under every
later schedule of worker steps, `requestFrame` and `stop` calls. After `stop()` the
worker calls the decoder at most once more. It calls it not at all when the worker
was outside a pass at the time of `stop()` (thread not running, about to evaluate
the loop condition, or out of `run()`): every run of the loop begun after `stop()`
returns without a decode and without an event, also for requests enqueued after
`stop()`. A pass under way can still decode one request: the request it had
dequeued, or, when it had got past the loop condition, the first one enqueued after
`stop()`. -/
theorem C16_stop_is_final (decode : String → Int → QImage) (s : LoaderThread)
    (acts : List ThreadAction) :
    s.stop.loader.requestQueue = [] ∧ s.stop.loader.running = false ∧
      (LoaderThread.exec decode acts s.stop).2.loader.running = false ∧
      (LoaderThread.exec decode acts s.stop).1.length ≤ 1 ∧
      ((s.loader.isRunning = false ∨ s.phase = .loopTest ∨ s.phase = .returned) →
        (LoaderThread.exec decode acts s.stop).1 = []) ∧
      (∀ r, s.loader.isRunning = true → s.phase = .dequeued r →
        (LoaderThread.exec decode (.workerStep :: acts) s.stop).1 =
          [(r, if !(decode r.filePath r.timestamp).isNull then
                 .frameLoaded r.filePath r.timestamp (decode r.filePath r.timestamp)
               else .frameLoadError r.filePath r.timestamp "Failed to load frame")]) ∧
      (∀ p t, s.loader.isRunning = true → s.phase = .lockQueue →
        (LoaderThread.exec decode
            (.requestFrame p t :: .workerStep :: .workerStep :: acts) s.stop).1 =
          [(⟨p, t⟩, if !(decode p t).isNull then .frameLoaded p t (decode p t)
                    else .frameLoadError p t "Failed to load frame")]) := by
  have hstop : s.stop.loader.running = false := rfl
  refine ⟨rfl, rfl, LoaderThread.exec_running decode acts _ hstop,
    LoaderThread.exec_stopped_length decode acts _ hstop, ?_, ?_, ?_⟩
  · intro hq
    exact LoaderThread.exec_between_passes decode acts _ hstop hq
  · intro r his hph
    obtain ⟨⟨q, run, ir⟩, ph⟩ := s
    simp only at his hph
    subst his hph
    have hrest := LoaderThread.exec_between_passes decode acts
      ⟨⟨[], false, true⟩, .loopTest⟩ rfl (Or.inr (Or.inl rfl))
    simp [LoaderThread.exec, LoaderThread.act, LoaderThread.step, LoaderThread.stop,
      FrameLoader.stop, FrameLoader.process, hrest, Option.toList]
  · intro p t his hph
    obtain ⟨⟨q, run, ir⟩, ph⟩ := s
    simp only at his hph
    subst his hph
    have hrest := LoaderThread.exec_between_passes decode acts
      ⟨⟨[], false, true⟩, .loopTest⟩ rfl (Or.inr (Or.inl rfl))
    simp [LoaderThread.exec, LoaderThread.act, LoaderThread.step, LoaderThread.stop,
      LoaderThread.requestFrame, FrameLoader.requestFrame, FrameLoader.stop,
      FrameLoader.process, hrest, Option.toList]

theorem C16_stop_is_final_witness :
    (LoaderThread.exec sampleDecode
        [.requestFrame "b" 33, .workerStep, .workerStep, .workerStep, .requestFrame "c" 66,
         .workerStep, .workerStep]
        (LoaderThread.new.requestFrame "a" 0).stop).1 = [] ∧
      (LoaderThread.exec sampleDecode
        [.requestFrame "b" 33, .workerStep, .workerStep, .workerStep, .requestFrame "c" 66,
         .workerStep, .workerStep]
        (LoaderThread.new.requestFrame "a" 0).stop).2.loader.requestQueue =
        [⟨"b", 33⟩, ⟨"c", 66⟩] :=
  ⟨(C16_stop_is_final sampleDecode (LoaderThread.new.requestFrame "a" 0)
      [.requestFrame "b" 33, .workerStep, .workerStep, .workerStep, .requestFrame "c" 66,
       .workerStep, .workerStep]).2.2.2.2.1 (by decide), by decide⟩

/-- C17, counterexample. A `getFrame` hit schedules nothing: with the frame of
`("clip.mp4", 0)` cached, `cacheAhead = 2` and the frame at 33 ms not cached,
`getFrame("clip.mp4", 0)` returns the frame and leaves the load queue empty. -/
theorem C17_counterexample_hit_schedules_nothing :
    windowHit.getCacheAhead = 2 ∧
      windowHit.frameCache.contains ⟨"clip.mp4", 33⟩ = false ∧
      windowHit.frameLoader.requestQueue = [] ∧
      (windowHit.getFrame "clip.mp4" 0).1 = ⟨524288, 1⟩ ∧
      (windowHit.getFrame "clip.mp4" 0).2.getCacheHits = 1 ∧
      (windowHit.getFrame "clip.mp4" 0).2.frameLoader.requestQueue = [] := by
  decide

/-- C17 (amended). Prefetch on a miss only: a `getFrame(S, T)` call that hits the
cache leaves the loader (its queue included) unchanged; a call that misses appends
`(S, T)` and then the not-yet-cached frames of the prefetch window around `T`
(`cacheAhead` frames after, `cacheBehind` frames before, timestamps in `qint64`). -/
theorem C17_prefetch_on_miss_only (fc : FrameCache) (S : String) (T : Int) :
    (fc.frameCache.contains ⟨S, T⟩ = true →
      (fc.getFrame S T).2.frameLoader = fc.frameLoader) ∧
    (fc.frameCache.contains ⟨S, T⟩ = false →
      (fc.getFrame S T).2.frameLoader.requestQueue =
        fc.frameLoader.requestQueue ++ [⟨S, T⟩] ++
          ((List.range fc.cacheAhead.toNat).map
            (fun (i : Nat) =>
              (⟨S, wrapInt64 (T + ((i : Int) + 1) * frameInterval)⟩ : LoadRequest))).filter
            (fun r => !fc.frameCache.contains ⟨r.filePath, r.timestamp⟩) ++
          ((List.range fc.cacheBehind.toNat).map
            (fun (i : Nat) =>
              (⟨S, wrapInt64 (T - ((i : Int) + 1) * frameInterval)⟩ : LoadRequest))).filter
            (fun r => !fc.frameCache.contains ⟨r.filePath, r.timestamp⟩)) := by
  constructor
  · intro hhit
    obtain ⟨n, _, _, hfind, _⟩ := fc.frameCache.object_hit ⟨S, T⟩ hhit
    rw [FrameCache.getFrame_hit fc S T n hfind]
  · intro hmiss
    rw [FrameCache.getFrame_miss fc S T hmiss]
    exact FrameCache.missLoader_queue fc S T

theorem C17_prefetch_on_miss_only_witness :
    (windowHit.getFrame "clip.mp4" 0).2.frameLoader = windowHit.frameLoader ∧
      (windowHit.getFrame "clip.mp4" 33).2.frameLoader.requestQueue =
        [⟨"clip.mp4", 33⟩, ⟨"clip.mp4", 66⟩, ⟨"clip.mp4", 99⟩] :=
  ⟨(C17_prefetch_on_miss_only windowHit "clip.mp4" 0).1 (by decide),
    ((C17_prefetch_on_miss_only windowHit "clip.mp4" 33).2 (by decide)).trans (by decide)⟩

theorem QCache.insert_into_empty (q : QCache) (k : CacheKey) (obj : QImage) (acost : Int)
    (hn : q.nodes = []) (hfit : acost ≤ q.mx) :
    (q.insert k obj acost).nodes = [⟨k, obj, acost⟩] := by
  have hk : k ∉ q.keys := by simp [QCache.keys, hn]
  unfold QCache.insert
  rw [q.remove_absent k hk]
  have h1 : ¬ acost > q.mx := not_lt.mpr hfit
  simp only [h1, if_false, QCache.trim, hn, QCache.trimLoop, List.nil_append]

theorem foldl_preserves {α β : Type} (P : α → Prop) (g : α → β → α)
    (hg : ∀ a b, P a → P (g a b)) (xs : List β) (a : α) (h : P a) : P (xs.foldl g a) := by
  induction xs generalizing a with
  | nil => exact h
  | cons x rest ih => exact ih _ (hg a x h)

theorem FrameLoader.requestFrame_isRunning (l : FrameLoader) (p : String) (t : Int) :
    (l.requestFrame p t).isRunning = true := by
  unfold FrameLoader.requestFrame
  cases h : l.isRunning <;> simp [h]

/-- After the enqueues of a miss the thread of the loader is started, and `running`
is as before. -/
theorem FrameCache.missLoader_flags (fc : FrameCache) (p : String) (t : Int) :
    (fc.missLoader p t).running = fc.frameLoader.running ∧
      (fc.missLoader p t).isRunning = true := by
  unfold FrameCache.missLoader
  apply foldl_preserves
    (fun l : FrameLoader => l.running = fc.frameLoader.running ∧ l.isRunning = true)
  · intro l i hl
    split
    · exact hl
    · exact ⟨by rw [FrameLoader.requestFrame_running]; exact hl.1,
        FrameLoader.requestFrame_isRunning _ _ _⟩
  · apply foldl_preserves
      (fun l : FrameLoader => l.running = fc.frameLoader.running ∧ l.isRunning = true)
    · intro l i hl
      split
      · exact hl
      · exact ⟨by rw [FrameLoader.requestFrame_running]; exact hl.1,
          FrameLoader.requestFrame_isRunning _ _ _⟩
    · exact ⟨FrameLoader.requestFrame_running _ _ _, FrameLoader.requestFrame_isRunning _ _ _⟩

/-- C19, counterexample. On a freshly constructed cache the first
`getFrame("input.mp4", 0)` is a miss and returns the null image, whatever the
decoder can do with the source: the decode is only enqueued. A second call right
after it (no loader event handled in between) is a miss again, and afterwards
`getCacheHits()` is 0 and `getCacheMisses()` is 2. -/
theorem C19_counterexample_first_lookup_returns_null :
    (FrameCache.new.getFrame "input.mp4" 0).1.isNull = true ∧
      ((FrameCache.new.getFrame "input.mp4" 0).2.getFrame "input.mp4" 0).1.isNull = true ∧
      ((FrameCache.new.getFrame "input.mp4" 0).2.getFrame "input.mp4" 0).2.getCacheHits = 0 ∧
      ((FrameCache.new.getFrame "input.mp4" 0).2.getFrame "input.mp4" 0).2.getCacheMisses = 2 := by
  have h1 : FrameCache.new.frameCache.contains ⟨"input.mp4", 0⟩ = false := by decide
  have e1 := FrameCache.getFrame_miss FrameCache.new "input.mp4" 0 h1
  have h2 : (FrameCache.new.getFrame "input.mp4" 0).2.frameCache.contains ⟨"input.mp4", 0⟩ =
      false := by
    rw [e1]; exact h1
  have e2 := FrameCache.getFrame_miss (FrameCache.new.getFrame "input.mp4" 0).2 "input.mp4" 0 h2
  refine ⟨by rw [e1]; rfl, by rw [e2]; rfl, ?_, ?_⟩
  · rw [e2, e1]; rfl
  · rw [e2, e1]; rfl

/-- C19 (amended). The first lookup is a miss, the lookup after the load is a hit:
on a freshly constructed cache `getFrame(path, 0)` returns the null image, counts
one miss and no hit, and starts the loader with the request for `(path, 0)` at the
head of its queue. For a source the decoder can decode (a non-null frame within the
budget of 512 MB) the first pass of the worker hands that request to the decoder
and emits `frameLoaded` with the decoded frame; once this event has been handled, a
second `getFrame(path, 0)` returns the decoded, non-null frame, and afterwards
`getCacheHits()` is 1 and `getCacheMisses()` is still 1. -/
theorem C19_first_lookup_misses_then_hits (decode : String → Int → QImage) (path : String)
    (hnn : (decode path 0).isNull = false)
    (hfit : (decode path 0).sizeInBytes ≤ 536870912) :
    (FrameCache.new.getFrame path 0).1 = QImage.null ∧
      (FrameCache.new.getFrame path 0).2.getCacheMisses = 1 ∧
      (FrameCache.new.getFrame path 0).2.getCacheHits = 0 ∧
      (FrameCache.new.getFrame path 0).2.frameLoader.requestQueue.head? = some ⟨path, 0⟩ ∧
      (FrameCache.new.getFrame path 0).2.frameLoader.isRunning = true ∧
      (LoaderThread.steps decode 3
          ⟨(FrameCache.new.getFrame path 0).2.frameLoader, .loopTest⟩).1 =
        [(⟨path, 0⟩, .frameLoaded path 0 (decode path 0))] ∧
      (((FrameCache.new.getFrame path 0).2.deliver
          (.frameLoaded path 0 (decode path 0))).getFrame path 0).1 = decode path 0 ∧
      (((FrameCache.new.getFrame path 0).2.deliver
          (.frameLoaded path 0 (decode path 0))).getFrame path 0).1.isNull = false ∧
      (((FrameCache.new.getFrame path 0).2.deliver
          (.frameLoaded path 0 (decode path 0))).getFrame path 0).2.getCacheHits = 1 ∧
      (((FrameCache.new.getFrame path 0).2.deliver
          (.frameLoaded path 0 (decode path 0))).getFrame path 0).2.getCacheMisses = 1 := by
  have h1 : FrameCache.new.frameCache.contains ⟨path, 0⟩ = false := rfl
  have e1 := FrameCache.getFrame_miss FrameCache.new path 0 h1
  have hflags := FrameCache.missLoader_flags FrameCache.new path 0
  have hqueue := FrameCache.missLoader_queue FrameCache.new path 0
  have hnew : FrameCache.new.frameLoader.requestQueue = [] := rfl
  rw [hnew, List.nil_append, List.append_assoc, List.singleton_append] at hqueue
  have hpass := LoaderThread.steps_pass decode (FrameCache.new.missLoader path 0) ⟨path, 0⟩ _
    (hflags.1.trans rfl) hflags.2 hqueue
  have hproc : FrameLoader.process decode ⟨path, 0⟩ = .frameLoaded path 0 (decode path 0) := by
    simp [FrameLoader.process, hnn]
  have hsize : (decode path 0).sizeInBytes < 2147483648 := by omega
  have hcost := insertCost_of_lt (decode path 0) hsize
  have hmx : FrameCache.new.frameCache.mx = 536870912 := by decide
  have hnodes : (FrameCache.new.frameCache.insert ⟨path, 0⟩ (decode path 0)
      (insertCost (decode path 0))).nodes =
      [⟨⟨path, 0⟩, decode path 0, insertCost (decode path 0)⟩] := by
    apply QCache.insert_into_empty _ _ _ _ rfl
    rw [hcost, hmx]
    exact_mod_cast hfit
  have hfind : ((FrameCache.new.getFrame path 0).2.deliver
      (.frameLoaded path 0 (decode path 0))).frameCache.nodes.find?
        (fun x => decide (x.key = ⟨path, 0⟩)) =
      some ⟨⟨path, 0⟩, decode path 0, insertCost (decode path 0)⟩ := by
    rw [e1]
    simp only [FrameCache.deliver, FrameCache.handleFrameLoaded, FrameCache.insertFrame]
    rw [hnodes]
    simp
  have e2 := FrameCache.getFrame_hit _ path 0 _ hfind
  refine ⟨by rw [e1], by rw [e1]; rfl, by rw [e1]; rfl, ?_, ?_, ?_, ?_, ?_, ?_, ?_⟩
  · rw [e1]
    show (FrameCache.new.missLoader path 0).requestQueue.head? = _
    rw [hqueue]; rfl
  · rw [e1]; exact hflags.2
  · rw [e1]
    simp only [hpass.1, hproc]
  · rw [e2]
  · rw [e2]; exact hnn
  · rw [e2, e1]; rfl
  · rw [e2, e1]; rfl

theorem C19_first_lookup_misses_then_hits_witness :
    (FrameCache.new.getFrame "input.mp4" 0).1 = QImage.null ∧
      (((FrameCache.new.getFrame "input.mp4" 0).2.deliver
          (.frameLoaded "input.mp4" 0 fullHdFrame)).getFrame "input.mp4" 0).1 = fullHdFrame ∧
      (((FrameCache.new.getFrame "input.mp4" 0).2.deliver
          (.frameLoaded "input.mp4" 0 fullHdFrame)).getFrame "input.mp4" 0).2.getCacheHits = 1 :=
  have h := C19_first_lookup_misses_then_hits (fun _ _ => fullHdFrame) "input.mp4"
    (by decide) (by decide)
  ⟨h.1, h.2.2.2.2.2.2.1, h.2.2.2.2.2.2.2.2.1⟩

/-- C20. Defaults: a freshly constructed `FrameCache` has `getMaxCacheSize() = 512`
(byte budget 536,870,912), `getCacheAhead() = 30`, `getCacheBehind() = 30`,
`getCacheHits() = 0`, `getCacheMisses() = 0`, `getCacheSize() = 0`, no cached entry,
an empty load queue and no signal emitted. -/
theorem C20_defaults :
    FrameCache.new.getMaxCacheSize = 512 ∧
      FrameCache.new.frameCache.mx = 512 * 1048576 ∧
      FrameCache.new.frameCache.mx = 536870912 ∧
      FrameCache.new.getCacheAhead = 30 ∧
      FrameCache.new.getCacheBehind = 30 ∧
      FrameCache.new.getCacheHits = 0 ∧
      FrameCache.new.getCacheMisses = 0 ∧
      FrameCache.new.getCacheSize = 0 ∧
      FrameCache.new.frameCache.nodes = [] ∧
      (∀ k, FrameCache.new.frameCache.contains k = false) ∧
      FrameCache.new.frameLoader.requestQueue = [] ∧
      FrameCache.new.emitted = [] := by
  refine ⟨by decide, by decide, by decide, by decide, by decide, by decide, by decide,
    by decide, by decide, ?_, by decide, by decide⟩
  intro k
  rfl

/-! ## The representation invariant holds in every reachable state -/

theorem QCache.trim_wf (q : QCache) (m : Int) (h : q.WF) : (q.trim m).WF := by
  refine ⟨?_, q.trim_total m h.2⟩
  have hs : (q.trim m).nodes <:+ q.nodes := trimLoop_suffix m q.nodes q.total
  exact List.Nodup.sublist (hs.sublist.map CacheNode.key) h.1

theorem QCache.remove_wf (q : QCache) (k : CacheKey) (h : q.WF) : (q.remove k).WF := by
  refine ⟨?_, q.remove_total k h.2⟩
  unfold QCache.keys
  rw [QCache.remove_nodes]
  exact List.Nodup.sublist ((List.eraseP_sublist _).map CacheNode.key) h.1

theorem QCache.insert_wf (q : QCache) (k : CacheKey) (obj : QImage) (acost : Int)
    (h : q.WF) : (q.insert k obj acost).WF := by
  have hr := q.remove_wf k h
  have hnot := q.remove_not_mem k h.1
  unfold QCache.insert
  simp only
  split
  · exact hr
  · have ht := (q.remove k).trim_wf ((q.remove k).mx - acost) hr
    refine ⟨?_, ?_⟩
    · simp only [QCache.keys, List.map_append, List.map_cons, List.map_nil]
      apply List.Nodup.append ht.1 (List.nodup_singleton _)
      intro x hx hx2
      simp only [List.mem_singleton] at hx2
      subst hx2
      obtain ⟨y, hy, hyk⟩ := List.mem_map.mp hx
      exact hnot (List.mem_map.mpr ⟨y, QCache.trim_mem _ _ y hy, hyk⟩)
    · simp only [costSum_append, costSum_cons, costSum_nil]
      have := ht.2
      linarith

theorem QCache.object_wf (q : QCache) (k : CacheKey) (h : q.WF) : (q.object k).2.WF := by
  unfold QCache.object
  split
  · exact h
  · rename_i n hn
    obtain ⟨hmem, hkey⟩ := find_mem k q.nodes n hn
    have hs := find_eraseP_costSum k q.nodes n hn
    refine ⟨?_, ?_⟩
    · simp only [QCache.keys, List.map_append, List.map_cons, List.map_nil, hkey]
      apply List.Nodup.append
        (List.Nodup.sublist ((List.eraseP_sublist _).map CacheNode.key) h.1)
        (List.nodup_singleton _)
      intro x hx hx2
      simp only [List.mem_singleton] at hx2
      subst hx2
      exact eraseP_key_not_mem x q.nodes h.1 hx
    · simp only [costSum_append, costSum_cons, costSum_nil]
      have := h.2
      linarith

theorem FrameCache.applyOp_wf (fc : FrameCache) (op : CacheOp) (h : fc.frameCache.WF) :
    (fc.applyOp op).frameCache.WF := by
  cases op with
  | insertFrame p t f =>
      simp only [FrameCache.applyOp, FrameCache.insertFrame_frameCache]
      exact fc.frameCache.insert_wf _ _ _ h
  | handleFrameLoaded p t f =>
      simp only [FrameCache.applyOp, FrameCache.handleFrameLoaded_frameCache]
      exact fc.frameCache.insert_wf _ _ _ h
  | getFrame p t =>
      simp only [FrameCache.applyOp, (fc.getFrame_frameCache p t).1]
      exact fc.frameCache.object_wf _ h
  | setMaxCacheSize m =>
      simp only [FrameCache.applyOp, FrameCache.setMaxCacheSize, QCache.setMaxCost]
      exact QCache.trim_wf _ _ h

/-- Every state reached from a fresh cache by insertions, lookups and budget
changes (of any value) satisfies the representation invariant. -/
theorem FrameCache.reachable_wf (ops : List CacheOp) :
    (ops.foldl FrameCache.applyOp FrameCache.new).frameCache.WF := by
  have hgen : ∀ (fc : FrameCache), fc.frameCache.WF →
      (ops.foldl FrameCache.applyOp fc).frameCache.WF := by
    induction ops with
    | nil => intro fc h; exact h
    | cons op rest ih =>
        intro fc h
        simp only [List.foldl_cons]
        exact ih _ (fc.applyOp_wf op h)
  exact hgen _ ⟨by decide, by decide⟩

/-! ## Proxy map and export start -/

theorem QHash.value_take_self (h : QHash) (key : String) :
    QHash.value (QHash.take h key).2 key = "" := by
  simp [QHash.value, QHash.take]

theorem QHash.take_other (h : QHash) (key other : String) (hne : other ≠ key) :
    (QHash.take h key).2 other = h other := by
  simp [QHash.take, hne]

theorem ProxyManager.removeProxy_proxyFiles (qfileRemove : FileSystem → String → FileSystem)
    (pm : ProxyManager) (sourceFile : String) :
    (pm.removeProxy qfileRemove sourceFile).proxyFiles = (pm.proxyFiles.take sourceFile).2 := by
  unfold ProxyManager.removeProxy
  simp only
  split <;> rfl

/-- C22. Proxy removal: for every source file, every prior state of the proxy map
and of the file system, and whatever `QFile::remove` does, after
`removeProxy(source)` `hasProxy(source)` is false and `getProxyPath(source)` is
empty, and the mapping (hence `getProxyPath`) of every other source file is
unchanged. -/
theorem C22_proxy_removal (qfileRemove : FileSystem → String → FileSystem)
    (pm : ProxyManager) (source : String) :
    (pm.removeProxy qfileRemove source).hasProxy source = false ∧
      (pm.removeProxy qfileRemove source).getProxyPath source = "" ∧
      (∀ other, other ≠ source →
        (pm.removeProxy qfileRemove source).proxyFiles other = pm.proxyFiles other ∧
        (pm.removeProxy qfileRemove source).getProxyPath other = pm.getProxyPath other) := by
  have hpf := ProxyManager.removeProxy_proxyFiles qfileRemove pm source
  have hval : (pm.removeProxy qfileRemove source).proxyFiles.value source = "" := by
    rw [hpf]; exact QHash.value_take_self _ _
  refine ⟨?_, ?_, ?_⟩
  · unfold ProxyManager.hasProxy
    simp only [hval]
    rfl
  · exact hval
  · intro other hne
    have h1 : (pm.removeProxy qfileRemove source).proxyFiles other = pm.proxyFiles other := by
      rw [hpf]; exact QHash.take_other _ _ _ hne
    refine ⟨h1, ?_⟩
    simp only [ProxyManager.getProxyPath, QHash.value, h1]

theorem C22_proxy_removal_witness :
    twoProxies.hasProxy "a.mp4" = true ∧
      (twoProxies.removeProxy deleteFile "a.mp4").hasProxy "a.mp4" = false ∧
      (twoProxies.removeProxy deleteFile "a.mp4").getProxyPath "a.mp4" = "" ∧
      (twoProxies.removeProxy deleteFile "a.mp4").getProxyPath "b.mp4" = "/cache/b_proxy.mp4" :=
  have h := C22_proxy_removal deleteFile twoProxies "a.mp4"
  ⟨by decide, h.1, h.2.1, (h.2.2 "b.mp4" (by decide)).2.trans (by decide)⟩

/-- C23. Export of a missing input fails cleanly: when no export is in progress
and the input path does not exist or is not readable, `startExport` returns false,
`getLastError()` is afterwards the non-empty text "Input file does not exist or is
not readable", no FFmpeg process is started, `exportStarted` is not emitted (the
only signal is `exportError` with that text) and the exporter is still idle. -/
theorem C23_missing_input_fails_cleanly (env : ExportEnv) (ve : VideoExporter)
    (inputFile outputFile : String) (hidle : ve.isExporting = false)
    (hmissing : env.fileExists inputFile = false ∨ env.isReadable inputFile = false) :
    (ve.startExport env inputFile outputFile).1 = false ∧
      (ve.startExport env inputFile outputFile).2.getLastError =
        "Input file does not exist or is not readable" ∧
      (ve.startExport env inputFile outputFile).2.getLastError ≠ "" ∧
      (ve.startExport env inputFile outputFile).2.processStarts = ve.processStarts ∧
      (ve.startExport env inputFile outputFile).2.emitted =
        ve.emitted ++ [.exportError "Input file does not exist or is not readable"] ∧
      (ve.startExport env inputFile outputFile).2.isExporting = false ∧
      (ve.startExport env inputFile outputFile).2.timerActive = ve.timerActive := by
  have hcond : (!env.fileExists inputFile || !env.isReadable inputFile) = true := by
    rcases hmissing with h | h <;> simp [h]
  have hres : ve.startExport env inputFile outputFile =
      (false, ve.reportError "Input file does not exist or is not readable") := by
    unfold VideoExporter.startExport
    rw [hidle]
    simp only [Bool.false_eq_true, if_false, hcond, if_true]
  rw [hres]
  have hne : ("Input file does not exist or is not readable" : String) ≠ "" := by decide
  exact ⟨rfl, rfl, hne, rfl, rfl, hidle, rfl⟩

theorem C23_missing_input_fails_cleanly_witness :
    (VideoExporter.new.startExport emptyDisk "nonexistent.mp4" "output.mp4").1 = false ∧
      (VideoExporter.new.startExport emptyDisk "nonexistent.mp4" "output.mp4").2.getLastError =
        "Input file does not exist or is not readable" ∧
      (VideoExporter.new.startExport emptyDisk "nonexistent.mp4" "output.mp4").2.getLastError ≠
        "" ∧
      (VideoExporter.new.startExport emptyDisk "nonexistent.mp4" "output.mp4").2.processStarts =
        VideoExporter.new.processStarts ∧
      (VideoExporter.new.startExport emptyDisk "nonexistent.mp4" "output.mp4").2.emitted =
        VideoExporter.new.emitted ++
          [.exportError "Input file does not exist or is not readable"] ∧
      (VideoExporter.new.startExport emptyDisk "nonexistent.mp4" "output.mp4").2.isExporting =
        false ∧
      (VideoExporter.new.startExport emptyDisk "nonexistent.mp4" "output.mp4").2.timerActive =
        VideoExporter.new.timerActive :=
  C23_missing_input_fails_cleanly emptyDisk VideoExporter.new "nonexistent.mp4" "output.mp4"
    rfl (Or.inl rfl)

/-! ## Clearing with pending work, restart of the worker, budget conversion -/

/-- C24. Clear does not touch pending work: `clearCache()` leaves the loader and
its queue exactly as they were; a `frameLoaded` signal delivered afterwards is
handled like any other (no epoch is consulted): the frame is passed to
`insertFrame` on the cleared cache and `frameAvailable` is emitted; when the
frame's cost fits the budget it becomes the only entry, so the cache is non-empty
again without any new `getFrame` or `prefetchFrames` call. -/
theorem C24_clear_keeps_pending_work (fc : FrameCache) (filePath : String)
    (timestamp : Int) (frame : QImage) :
    fc.clearCache.frameLoader = fc.frameLoader ∧
      fc.clearCache.frameLoader.requestQueue = fc.frameLoader.requestQueue ∧
      fc.clearCache.deliver (.frameLoaded filePath timestamp frame) =
        fc.clearCache.handleFrameLoaded filePath timestamp frame ∧
      (fc.clearCache.handleFrameLoaded filePath timestamp frame).frameCache =
        (fc.clearCache.insertFrame filePath timestamp frame).frameCache ∧
      (fc.clearCache.handleFrameLoaded filePath timestamp frame).emitted =
        fc.emitted ++ [.frameAvailable filePath timestamp] ∧
      (insertCost frame ≤ fc.frameCache.mx →
        (fc.clearCache.handleFrameLoaded filePath timestamp frame).frameCache.nodes =
            [⟨⟨filePath, timestamp⟩, frame, insertCost frame⟩] ∧
          (fc.clearCache.handleFrameLoaded filePath timestamp frame).frameCache.contains
            ⟨filePath, timestamp⟩ = true) := by
  refine ⟨rfl, rfl, rfl, ?_, ?_, ?_⟩
  · rw [FrameCache.handleFrameLoaded_frameCache, FrameCache.insertFrame_frameCache]
  · simp only [FrameCache.handleFrameLoaded, FrameCache.insertFrame, FrameCache.clearCache,
      FrameCache.resetStatistics]
  · intro hfit
    have hnodes : (fc.clearCache.handleFrameLoaded filePath timestamp frame).frameCache.nodes =
        [⟨⟨filePath, timestamp⟩, frame, insertCost frame⟩] := by
      rw [FrameCache.handleFrameLoaded_frameCache]
      exact QCache.insert_into_empty _ _ _ _ rfl hfit
    refine ⟨hnodes, ?_⟩
    simp [QCache.contains, hnodes]

theorem C24_clear_keeps_pending_work_witness :
    pendingOnce.frameLoader.requestQueue = [⟨"clip.mp4", 0⟩] ∧
      pendingOnce.clearCache.frameLoader.requestQueue = [⟨"clip.mp4", 0⟩] ∧
      FrameLoader.iteration sampleDecode pendingOnce.clearCache.frameLoader =
        some (.frameLoaded "clip.mp4" 0 ⟨524288, 1⟩,
          { pendingOnce.clearCache.frameLoader with requestQueue := [] }) ∧
      (pendingOnce.clearCache.handleFrameLoaded "clip.mp4" 0 ⟨524288, 1⟩).frameCache.nodes =
        [⟨⟨"clip.mp4", 0⟩, ⟨524288, 1⟩, insertCost ⟨524288, 1⟩⟩] ∧
      (pendingOnce.clearCache.handleFrameLoaded "clip.mp4" 0 ⟨524288, 1⟩).frameCache.contains
        ⟨"clip.mp4", 0⟩ = true :=
  ⟨by decide, by decide, by decide,
    ((C24_clear_keeps_pending_work pendingOnce "clip.mp4" 0 ⟨524288, 1⟩).2.2.2.2.2
      (by decide)).1,
    ((C24_clear_keeps_pending_work pendingOnce "clip.mp4" 0 ⟨524288, 1⟩).2.2.2.2.2
      (by decide)).2⟩

/-- C25, the code at the failing schedule. The worker, started by a first request
and done with it, finds the queue empty and leaves the loop (no `stop()`: `running`
is still true); the thread is not yet marked as finished, so `isRunning()` is still
true. A `requestFrame` that arrives
now enqueues its request and does not start the thread; the thread ends, and no
number of further worker steps decodes the request: it stays in the queue and no
event is emitted for it. Only a `requestFrame` made after the thread has finished
starts the worker again, which then hands the request to the decoder and reports it
by exactly one event, `frameLoaded` with the decoded frame or `frameLoadError`. -/
theorem C25_request_before_thread_end_is_not_started (decode : String → Int → QImage)
    (filePath : String) (timestamp : Int) (n : Nat) :
    (LoaderThread.steps decode 5 (LoaderThread.new.requestFrame "a" 0)).2 = exitedLoop ∧
      LoaderThread.steps decode 2 ⟨⟨[], true, true⟩, .loopTest⟩ = ([], exitedLoop) ∧
      exitedLoop.loader.running = true ∧ exitedLoop.loader.isRunning = true ∧
      exitedLoop.requestFrame filePath timestamp =
        ⟨⟨[⟨filePath, timestamp⟩], true, true⟩, .returned⟩ ∧
      LoaderThread.steps decode (1 + n) (exitedLoop.requestFrame filePath timestamp) =
        ([], ⟨⟨[⟨filePath, timestamp⟩], true, false⟩, .loopTest⟩) ∧
      (exitedLoop.step decode).2 = ⟨⟨[], true, false⟩, .loopTest⟩ ∧
      (exitedLoop.step decode).2.requestFrame filePath timestamp =
        ⟨⟨[⟨filePath, timestamp⟩], true, true⟩, .loopTest⟩ ∧
      LoaderThread.steps decode (6 + n)
          ((exitedLoop.step decode).2.requestFrame filePath timestamp) =
        ([(⟨filePath, timestamp⟩,
            if !(decode filePath timestamp).isNull then
              .frameLoaded filePath timestamp (decode filePath timestamp)
            else .frameLoadError filePath timestamp "Failed to load frame")],
          ⟨⟨[], true, false⟩, .loopTest⟩) := by
  have h1 : exitedLoop.requestFrame filePath timestamp =
      ⟨⟨[⟨filePath, timestamp⟩], true, true⟩, .returned⟩ := by
    simp [exitedLoop, LoaderThread.requestFrame, FrameLoader.requestFrame]
  have h2 : (exitedLoop.step decode).2 = ⟨⟨[], true, false⟩, .loopTest⟩ := by
    simp [exitedLoop, LoaderThread.step]
  have h3 : (⟨⟨[], true, false⟩, .loopTest⟩ : LoaderThread).requestFrame filePath timestamp =
      ⟨⟨[⟨filePath, timestamp⟩], true, true⟩, .loopTest⟩ := by
    simp [LoaderThread.requestFrame, FrameLoader.requestFrame]
  refine ⟨?_, ?_, rfl, rfl, h1, ?_, h2, ?_, ?_⟩
  · simp [LoaderThread.steps, List.replicate, LoaderThread.exec, LoaderThread.act,
      LoaderThread.step, LoaderThread.requestFrame, FrameLoader.requestFrame,
      LoaderThread.new, FrameLoader.new, exitedLoop]
  · simp [LoaderThread.steps, List.replicate, LoaderThread.exec, LoaderThread.act,
      LoaderThread.step, Option.toList, exitedLoop]
  · rw [h1, LoaderThread.steps_add]
    have hs : LoaderThread.steps decode 1
        ⟨⟨[⟨filePath, timestamp⟩], true, true⟩, .returned⟩ =
        ([], ⟨⟨[⟨filePath, timestamp⟩], true, false⟩, .loopTest⟩) := by
      simp [LoaderThread.steps, List.replicate, LoaderThread.exec, LoaderThread.act,
        LoaderThread.step, Option.toList]
    rw [hs, LoaderThread.steps_finished decode n _ rfl]
    rfl
  · rw [h2, h3]
  · rw [h2, h3, LoaderThread.steps_add]
    have hs := LoaderThread.steps_run decode ⟨[⟨filePath, timestamp⟩], true, true⟩ rfl rfl
    have hs1 : LoaderThread.steps decode 6
        ⟨⟨[⟨filePath, timestamp⟩], true, true⟩, .loopTest⟩ =
        ([(⟨filePath, timestamp⟩, FrameLoader.process decode ⟨filePath, timestamp⟩)],
          ⟨⟨[], true, false⟩, .loopTest⟩) := by
      have := hs.1
      simpa [FrameLoader.run, FrameLoader.runLoop_running] using this
    rw [hs1, LoaderThread.steps_finished decode n _ rfl]
    simp [FrameLoader.process]

theorem wrapInt32_bounds (x : Int) :
    -2147483648 ≤ wrapInt32 x ∧ wrapInt32 x ≤ 2147483647 := by
  unfold wrapInt32
  split <;> omega

/-- C26. Megabyte-to-byte conversion: with the `int` arithmetic of
`setMaxCacheSize`, the byte budget handed to the cache equals `m * 1,048,576`
exactly if and only if `-2048 ≤ m ≤ 2047`; for `m = 2048` the product wraps to
`-2^31`, a negative budget. The constructor's 512 MB lies in the exact range. -/
theorem C26_megabyte_conversion (fc : FrameCache) (m : Int) :
    ((fc.setMaxCacheSize m).frameCache.mx = m * 1048576 ↔ (-2048 ≤ m ∧ m ≤ 2047)) ∧
      (fc.setMaxCacheSize 2048).frameCache.mx = -2147483648 ∧
      (fc.setMaxCacheSize 2048).frameCache.mx < 0 ∧
      FrameCache.new.frameCache.mx = 512 * 1048576 := by
  have hmx : ∀ k : Int, (fc.setMaxCacheSize k).frameCache.mx =
      wrapInt32 (wrapInt32 (k * 1024) * 1024) := by
    intro k
    simp only [FrameCache.setMaxCacheSize, QCache.setMaxCost_mx]
  have h2048 : wrapInt32 (wrapInt32 (2048 * 1024) * 1024) = -2147483648 := by decide
  refine ⟨?_, ?_, ?_, by decide⟩
  · rw [hmx]
    constructor
    · intro h
      have hb := wrapInt32_bounds (wrapInt32 (m * 1024) * 1024)
      rw [h] at hb
      omega
    · intro h
      exact wrapInt32_megabytes_range m h.1 h.2
  · rw [hmx, h2048]
  · rw [hmx, h2048]; decide

/-! ## Error message, read-only prefetching, termination of the range prefetch -/

/-- C27, the code at the failing input. For the file path `clip%1.mp4` the chained
`arg` calls put the error text into the path: after the timestamp and the path
have been substituted, the lowest place marker left is the `%1` inside the path, so
the error text replaces it and `%3` stays; the message is not "Failed to load frame
at 1000ms from clip%1.mp4: Failed to load frame". A path without place marker gives
the message of the claim. -/
theorem C27_placeholder_in_path_breaks_message :
    (FrameCache.new.handleFrameLoadError "clip%1.mp4" 1000 "Failed to load frame").emitted =
        [.cacheError "Failed to load frame at 1000ms from clipFailed to load frame.mp4: %3"] ∧
      (FrameCache.new.handleFrameLoadError "clip%1.mp4" 1000 "Failed to load frame").emitted ≠
        [.cacheError
          "Failed to load frame at 1000ms from clip%1.mp4: Failed to load frame"] ∧
      (FrameCache.new.handleFrameLoadError "clip.mp4" 1000 "Failed to load frame").emitted =
        [.cacheError "Failed to load frame at 1000ms from clip.mp4: Failed to load frame"] := by
  decide

theorem FrameCache.sameButLoader_refl (a : FrameCache) : a.sameButLoader a :=
  ⟨rfl, rfl, rfl, rfl, rfl, rfl, rfl⟩

theorem FrameCache.sameButLoader_trans (a b c : FrameCache) (h1 : a.sameButLoader b)
    (h2 : b.sameButLoader c) : a.sameButLoader c := by
  obtain ⟨a1, a2, a3, a4, a5, a6, a7⟩ := h1
  obtain ⟨b1, b2, b3, b4, b5, b6, b7⟩ := h2
  exact ⟨a1.trans b1, a2.trans b2, a3.trans b3, a4.trans b4, a5.trans b5, a6.trans b6,
    a7.trans b7⟩

theorem FrameCache.prefetchFrame_sameButLoader (fc : FrameCache) (p : String) (t : Int) :
    fc.sameButLoader (fc.prefetchFrame p t) := by
  rw [FrameCache.prefetchFrame_eq]
  exact ⟨rfl, rfl, rfl, rfl, rfl, rfl, rfl⟩

theorem FrameCache.prefetchFramesLoop_sameButLoader (p : String) (endTime : Int) :
    ∀ (fuel : Nat) (time : Int) (fc fc2 : FrameCache),
      FrameCache.prefetchFramesLoop p endTime fuel time fc = some fc2 →
      fc.sameButLoader fc2 := by
  intro fuel
  induction fuel with
  | zero =>
      intro time fc fc2 h
      simp [FrameCache.prefetchFramesLoop] at h
  | succ f ih =>
      intro time fc fc2 h
      unfold FrameCache.prefetchFramesLoop at h
      split at h
      · exact FrameCache.sameButLoader_trans _ _ _ (fc.prefetchFrame_sameButLoader p time)
          (ih _ _ _ h)
      · simp only [Option.some.injEq] at h
        rw [← h]
        exact fc.sameButLoader_refl

/-- C28. Prefetching is read-only on the cache: `prefetchFrame`, `prefetchFrames`
(whenever it returns, and it does return for a range inside the `qint64` bounds
with `end ≤ 2^63 - 1 - 33`) and the scheduling part of a `getFrame` miss change
nothing but the loader: the cache with its keys, frames, recency order, total cost
and budget, the hit count, the configuration and the signals emitted are the same
before and after, and so is the miss count (which the `getFrame` miss itself has
raised by one before it schedules). -/
theorem C28_prefetch_is_read_only (fc : FrameCache) (S : String) (T startTime endTime : Int)
    (fuel : Nat) :
    fc.sameButLoader (fc.prefetchFrame S T) ∧
      (∀ fc2, fc.prefetchFrames fuel S startTime endTime = some fc2 → fc.sameButLoader fc2) ∧
      (-9223372036854775808 ≤ startTime → endTime ≤ 9223372036854775774 →
        ((endTime - startTime) / 33 + 1).toNat < fuel →
        ∃ fc2, fc.prefetchFrames fuel S startTime endTime = some fc2 ∧ fc.sameButLoader fc2) ∧
      (fc.frameCache.contains ⟨S, T⟩ = false →
        (fc.getFrame S T).2.frameCache = fc.frameCache ∧
        (fc.getFrame S T).2.cacheHits = fc.cacheHits ∧
        (fc.getFrame S T).2.cacheMisses = fc.cacheMisses + 1 ∧
        (fc.getFrame S T).2.emitted = fc.emitted) := by
  refine ⟨fc.prefetchFrame_sameButLoader S T, ?_, ?_, ?_⟩
  · intro fc2 h
    exact FrameCache.prefetchFramesLoop_sameButLoader S endTime fuel startTime fc fc2 h
  · intro hlo hhi hfuel
    have hspec := FrameCache.prefetchFramesLoop_spec S endTime
      ((endTime - startTime) / 33 + 1).toNat fuel startTime fc hfuel
      (by intro k hk; omega) (by omega) hlo hhi
    exact ⟨_, hspec,
      FrameCache.prefetchFramesLoop_sameButLoader S endTime fuel startTime fc _ hspec⟩
  · intro hmiss
    rw [FrameCache.getFrame_miss fc S T hmiss]
    exact ⟨rfl, rfl, rfl, rfl⟩

theorem C28_prefetch_is_read_only_witness :
    (∀ fc2, lruFull.prefetchFrames 10 "A" 0 100 = some fc2 → lruFull.sameButLoader fc2) ∧
      (∃ fc2, lruFull.prefetchFrames 10 "A" 0 100 = some fc2 ∧ lruFull.sameButLoader fc2) ∧
      (lruFull.getFrame "A" 33).2.frameCache = lruFull.frameCache :=
  ⟨(C28_prefetch_is_read_only lruFull "A" 33 0 100 10).2.1,
    (C28_prefetch_is_read_only lruFull "A" 33 0 100 10).2.2.1 (by decide) (by decide)
      (by decide),
    ((C28_prefetch_is_read_only lruFull "A" 33 0 100 10).2.2.2 (by decide)).1⟩

theorem FrameCache.prefetchFramesLoop_short (p : String) (endTime : Int) :
    ∀ (fuel n : Nat) (time : Int) (fc : FrameCache), fuel ≤ n →
      (∀ k : Nat, k < n → time + 33 * (k : Int) ≤ endTime) →
      endTime ≤ 9223372036854775774 → -9223372036854775808 ≤ time →
      FrameCache.prefetchFramesLoop p endTime fuel time fc = none := by
  intro fuel
  induction fuel with
  | zero => intro n time fc _ _ _ _; rfl
  | succ f ih =>
      intro n time fc hle hall hhi hlo
      obtain ⟨n2, rfl⟩ : ∃ n2, n = n2 + 1 := ⟨n - 1, by omega⟩
      have h0 : time ≤ endTime := by simpa using hall 0 (Nat.succ_pos n2)
      have hw : wrapInt64 (time + frameInterval) = time + 33 := by
        rw [frameInterval_eq]
        exact wrapInt64_of_range _ (by omega) (by omega)
      simp only [FrameCache.prefetchFramesLoop, h0, if_true, hw]
      exact ih n2 (time + 33) _ (by omega)
        (by
          intro k hk
          have := hall (k + 1) (by omega)
          push_cast at this
          linarith)
        hhi (by omega)

/-- C29. Range prefetch terminates: for every `qint64` `start` and every
`end ≤ 2^63 - 1 - 33`, with `n = max(0, (end - start) / 33 + 1)` (which is
`(end - start) / 33 + 1` for `start ≤ end` and 0 for `start > end`), the loop of
`prefetchFrames` makes exactly `n` passes: it has not ended within `n` evaluations
of its condition and has ended with the next one; every value of the running
timestamp, `start + 33 * k` for `k ≤ n`, is representable (no wrap-around); and at
most `n` requests are enqueued. -/
theorem C29_range_prefetch_terminates (fc : FrameCache) (S : String)
    (startTime endTime : Int) (hlo : -9223372036854775808 ≤ startTime)
    (hst : startTime ≤ 9223372036854775807) (hhi : endTime ≤ 9223372036854775774) :
    fc.prefetchFrames ((endTime - startTime) / 33 + 1).toNat S startTime endTime = none ∧
      (∃ fc2, fc.prefetchFrames (((endTime - startTime) / 33 + 1).toNat + 1) S startTime
          endTime = some fc2 ∧
        fc2.frameLoader.requestQueue.length ≤
          fc.frameLoader.requestQueue.length + ((endTime - startTime) / 33 + 1).toNat) ∧
      (∀ k : Nat, k ≤ ((endTime - startTime) / 33 + 1).toNat →
        wrapInt64 (startTime + 33 * (k : Int)) = startTime + 33 * (k : Int)) ∧
      (startTime ≤ endTime →
        ((((endTime - startTime) / 33 + 1).toNat : Nat) : Int) =
          (endTime - startTime) / 33 + 1) ∧
      (endTime < startTime → ((endTime - startTime) / 33 + 1).toNat = 0) := by
  refine ⟨?_, ?_, ?_, ?_, ?_⟩
  · exact FrameCache.prefetchFramesLoop_short S endTime _ _ startTime fc (le_refl _)
      (by intro k hk; omega) hhi hlo
  · have hspec := FrameCache.prefetchFramesLoop_spec S endTime
      ((endTime - startTime) / 33 + 1).toNat (((endTime - startTime) / 33 + 1).toNat + 1)
      startTime fc (Nat.lt_succ_self _) (by intro k hk; omega) (by omega) hlo hhi
    refine ⟨_, hspec, ?_⟩
    simp only [foldl_request_queue_times, List.length_append]
    have hlen := List.length_filter_le
      (fun r : LoadRequest => !fc.frameCache.contains ⟨r.filePath, r.timestamp⟩)
      ((prefetchTimes startTime ((endTime - startTime) / 33 + 1).toNat).map
        (fun t => (⟨S, t⟩ : LoadRequest)))
    simp only [List.length_map, prefetchTimes_eq, List.length_range] at hlen
    simp only [prefetchTimes_eq]
    omega
  · intro k hk
    exact wrapInt64_of_range _ (by omega) (by omega)
  · intro h
    omega
  · intro h
    omega

theorem C29_range_prefetch_terminates_witness :
    noWindow.prefetchFrames 4 "clip.mp4" 0 100 = none ∧
      ∃ fc2, noWindow.prefetchFrames 5 "clip.mp4" 0 100 = some fc2 ∧
        fc2.frameLoader.requestQueue.length ≤ noWindow.frameLoader.requestQueue.length + 4 :=
  have h := C29_range_prefetch_terminates noWindow "clip.mp4" 0 100 (by decide) (by decide)
    (by decide)
  ⟨h.1, h.2.1⟩

/-! ## Keyframes stay sorted -/

theorem insertAt_zero {γ : Type} (l : List γ) (x : γ) : insertAt l 0 x = x :: l := by
  simp [insertAt]

theorem insertAt_succ_cons {γ : Type} (h : γ) (l : List γ) (i : Nat) (x : γ) :
    insertAt (h :: l) (i + 1) x = h :: insertAt l i x := by
  simp [insertAt]

theorem mem_insertAt {γ : Type} (l : List γ) (i : Nat) (x y : γ) (hy : y ∈ insertAt l i x) :
    y = x ∨ y ∈ l := by
  unfold insertAt at hy
  rcases List.mem_append.mp hy with h | h
  · exact Or.inr (List.mem_of_mem_take h)
  · rcases List.mem_cons.mp h with h | h
    · exact Or.inl h
    · exact Or.inr (List.mem_of_mem_drop h)

theorem sorted_insertAt_lowerBound {α β : Type} [LinearOrder α] (l : List (Keyframe α β))
    (x : Keyframe α β) (hs : l.Pairwise (fun a b => a.time ≤ b.time)) :
    (insertAt l (lowerBound l x.time) x).Pairwise (fun a b => a.time ≤ b.time) := by
  induction l with
  | nil => simp [insertAt, lowerBound]
  | cons h tl ih =>
      rw [List.pairwise_cons] at hs
      by_cases hlt : h.time < x.time
      · have hlb : lowerBound (h :: tl) x.time = lowerBound tl x.time + 1 := by
          simp [lowerBound, List.takeWhile_cons, hlt]
        rw [hlb, insertAt_succ_cons, List.pairwise_cons]
        refine ⟨?_, ih hs.2⟩
        intro y hy
        rcases mem_insertAt _ _ _ _ hy with hyx | hyt
        · rw [hyx]; exact le_of_lt hlt
        · exact hs.1 y hyt
      · have hlb : lowerBound (h :: tl) x.time = 0 := by
          simp [lowerBound, List.takeWhile_cons, hlt]
        have hle : x.time ≤ h.time := not_lt.mp hlt
        rw [hlb, insertAt_zero, List.pairwise_cons, List.pairwise_cons]
        refine ⟨?_, hs.1, hs.2⟩
        intro y hy
        rcases List.mem_cons.mp hy with hyh | hyt
        · rw [hyh]; exact hle
        · exact le_trans hle (hs.1 y hyt)

theorem setValueAt_times {α β : Type} (l : List (Keyframe α β)) (i : Nat) (v : β) :
    (setValueAt l i v).map Keyframe.time = l.map Keyframe.time := by
  induction l generalizing i with
  | nil => rfl
  | cons h tl ih =>
      cases i with
      | zero => simp [setValueAt]
      | succ i => simp [setValueAt, ih]

theorem sorted_setValueAt {α β : Type} [LinearOrder α] (l : List (Keyframe α β)) (i : Nat)
    (v : β) (hs : l.Pairwise (fun a b => a.time ≤ b.time)) :
    (setValueAt l i v).Pairwise (fun a b => a.time ≤ b.time) := by
  have h1 : (l.map Keyframe.time).Pairwise (· ≤ ·) := List.pairwise_map.mpr hs
  rw [← setValueAt_times l i v] at h1
  exact List.pairwise_map.mp h1

/-- C30. Keyframes stay sorted: if the keyframe list of an `Animation` is sorted by
non-decreasing time (times from a linear order, as the `double` values without NaN
are), it is still sorted after `addKeyframe(t, v)` (whatever `qFuzzyCompare`
answers), after `removeKeyframe(i)` and after `updateKeyframe(i, t, v)`, for every
`t`, `v` and `i`; an index that is negative or not below the size leaves the list
unchanged. -/
theorem C30_keyframes_stay_sorted {α β : Type} [LinearOrder α] (fuzzy : α → α → Bool)
    (a : Animation α β) (t : α) (v : β) (i : Int) (hs : a.sorted) :
    (a.addKeyframe fuzzy t v).sorted ∧ (a.removeKeyframe i).sorted ∧
      (a.updateKeyframe i t v).sorted ∧
      ((i < 0 ∨ (a.keyframes.length : Int) ≤ i) →
        (a.removeKeyframe i).keyframes = a.keyframes ∧
        (a.updateKeyframe i t v).keyframes = a.keyframes) := by
  have hins : ∀ (l : List (Keyframe α β)) (ty : KeyframeType) (w : β),
      l.Pairwise (fun a b => a.time ≤ b.time) →
      (insertAt l (lowerBound l t) ⟨ty, t, w⟩).Pairwise (fun a b => a.time ≤ b.time) :=
    fun l ty w hl => sorted_insertAt_lowerBound l ⟨ty, t, w⟩ hl
  have herase : ∀ n : Nat, (a.keyframes.eraseIdx n).Pairwise (fun a b => a.time ≤ b.time) :=
    fun n => List.Pairwise.sublist (List.eraseIdx_sublist _ _) hs
  refine ⟨?_, ?_, ?_, ?_⟩
  · unfold Animation.addKeyframe Animation.sorted
    simp only
    split
    · split
      · exact sorted_setValueAt _ _ _ hs
      · exact hins _ _ _ hs
    · exact hins _ _ _ hs
  · unfold Animation.removeKeyframe Animation.sorted
    split
    · exact herase _
    · exact hs
  · unfold Animation.updateKeyframe Animation.sorted
    split
    · split
      · exact hins _ _ _ (herase _)
      · exact hs
    · exact hs
  · intro hout
    have hcond : ¬ (0 ≤ i ∧ i < (a.keyframes.length : Int)) := by omega
    constructor
    · simp only [Animation.removeKeyframe, hcond, if_false]
    · simp only [Animation.updateKeyframe, hcond, if_false]

theorem C30_keyframes_stay_sorted_witness :
    (sampleAnimation.addKeyframe sameTime 15 9).sorted ∧
      (sampleAnimation.removeKeyframe 1).sorted ∧
      (sampleAnimation.updateKeyframe 0 12 9).sorted ∧
      (sampleAnimation.updateKeyframe 0 12 9).keyframes.map Keyframe.time = [10, 10, 12, 20] ∧
      (sampleAnimation.addKeyframe sameTime 15 9).keyframes.map Keyframe.time =
        [0, 10, 10, 15, 20] :=
  have h := C30_keyframes_stay_sorted sameTime sampleAnimation 15 9 1
    (by simp [Animation.sorted, sampleAnimation])
  have h2 := C30_keyframes_stay_sorted sameTime sampleAnimation 12 9 0
    (by simp [Animation.sorted, sampleAnimation])
  ⟨h.1, h.2.1, h2.2.2.1, by decide, by decide⟩
